import Mathlib

/-!
Verification of the Evidence-Synchronized Scene Timeline Engine
(`src/engine/scene_planner.py`, class `ScenePlanner`).

The Python engine manipulates JSON-like scene dictionaries.  We embed the
relevant passes shallowly: scenes and elements become Lean structures with
the same fields, Python floats become exact rationals (all constants in the
source are decimal literals, and no claim hinges on binary floating-point
rounding), and each repair pass of `_validate_timeline`,
`assign_timing_with_sentences` and `_fill_empty_scenes` becomes an
executable Lean function that mirrors the source control flow statement by
statement.  Line numbers in comments refer to `src/engine/scene_planner.py`.
-/

namespace ScenePlanner

/-! ### Text utilities

Python string helpers used by the planner: `str.lower`, removal of
`string.punctuation` via `str.translate`, the regex `[^a-z0-9 ]+` used by
`_norm_text`, `str.find`, `str.split`, and `re.findall(r'\d+(?:\.\d+)?', ...)`.
All script text handled by the engine is ASCII. -/

/-- ASCII lower-casing, the effect of Python `str.lower` on ASCII text. -/
def asciiLower (c : Char) : Char :=
  if 65 ≤ c.toNat ∧ c.toNat ≤ 90 then Char.ofNat (c.toNat + 32) else c

/-- Membership in Python's `string.punctuation`. -/
def isPunct (c : Char) : Bool :=
  "!\"#$%&'()*+,-./:;<=>?@[\\]^_`\x7b|\x7d~".data.contains c

def isSpaceChar (c : Char) : Bool :=
  c = ' ' ∨ c = '\t' ∨ c = '\n' ∨ c = '\r'

/-- Python `str.strip()`. -/
def pyStrip (s : List Char) : List Char :=
  ((s.dropWhile isSpaceChar).reverse.dropWhile isSpaceChar).reverse

/-- `text.lower().translate(str.maketrans('', '', string.punctuation))`:
lower-case and delete punctuation characters (lines 2063-2064, 2127). -/
def cleanChars (s : List Char) : List Char :=
  (s.map asciiLower).filter (fun c => !isPunct c)

/-- `_norm_text` (lines 1907-1908, 2387-2388):
`re.sub(r'[^a-z0-9 ]+', '', text.lower()).strip()`. -/
def normChars (s : List Char) : List Char :=
  pyStrip ((s.map asciiLower).filter
    (fun c => ('a' ≤ c ∧ c ≤ 'z') ∨ ('0' ≤ c ∧ c ≤ '9') ∨ c = ' '))

/-- Does `pat` occur at the head of `s`? -/
def charsStartsWith : List Char → List Char → Bool
  | _, [] => true
  | [], _ :: _ => false
  | c :: s, p :: pat => c = p && charsStartsWith s pat

/-- First index at which `pat` occurs in `s`, if any (Python `str.find` core). -/
def charsFindAux : List Char → List Char → ℕ → Option ℕ
  | s, pat, i =>
    if charsStartsWith s pat then some i
    else match s with
      | [] => none
      | _ :: rest => charsFindAux rest pat (i + 1)

/-- Python `str.find`: index of the first occurrence, `-1` when absent. -/
def pyFind (s pat : List Char) : ℤ :=
  match charsFindAux s pat 0 with
  | some i => (i : ℤ)
  | none => -1

/-- Python substring test `pat in s`. -/
def pyContains (s pat : List Char) : Bool :=
  (charsFindAux s pat 0).isSome

/-- Python `str.split()`: split on whitespace runs, dropping empty pieces. -/
def pySplitAux : List Char → List Char → List (List Char)
  | [], acc => if acc = [] then [] else [acc.reverse]
  | c :: rest, acc =>
    if isSpaceChar c then
      (if acc = [] then [] else [acc.reverse]) ++ pySplitAux rest []
    else pySplitAux rest (c :: acc)

def pySplit (s : List Char) : List (List Char) :=
  pySplitAux s []

/-- Python `sep.join`-style intercalation with a single space. -/
def joinSpace : List (List Char) → List Char
  | [] => []
  | [w] => w
  | w :: rest => w ++ ' ' :: joinSpace rest

/-- Python `str.split('.')`: split on each dot, keeping empty pieces. -/
def pySplitDotAux : List Char → List Char → List (List Char)
  | [], acc => [acc.reverse]
  | c :: rest, acc =>
    if c = '.' then acc.reverse :: pySplitDotAux rest []
    else pySplitDotAux rest (c :: acc)

def pySplitDot (s : List Char) : List (List Char) :=
  pySplitDotAux s []

/-- `text.replace(old, '')` for a single character `old`. -/
def dropChar (old : Char) (s : List Char) : List Char :=
  s.filter (fun c => c ≠ old)

/-- Does the text contain an ASCII digit (`re.search(r'\d', text)`)? -/
def hasDigit (s : List Char) : Bool :=
  s.any (fun c => '0' ≤ c ∧ c ≤ '9')

def isDigitChar (c : Char) : Bool :=
  '0' ≤ c ∧ c ≤ '9'

/-- `re.findall(r'\d+(?:\.\d+)?', s)`: maximal digit runs with an optional
single fractional part. -/
def digitTokens : List Char → List (List Char)
  | [] => []
  | c :: rest =>
    if isDigitChar c then
      let intPart := rest.takeWhile isDigitChar
      match hm : rest.dropWhile isDigitChar with
      | '.' :: d :: rest₂ =>
        if isDigitChar d then
          let fracPart := d :: rest₂.takeWhile isDigitChar
          ((c :: intPart) ++ '.' :: fracPart) :: digitTokens (rest₂.dropWhile isDigitChar)
        else (c :: intPart) :: digitTokens ('.' :: d :: rest₂)
      | other => (c :: intPart) :: digitTokens other
    else digitTokens rest
  termination_by s => s.length
  decreasing_by
    all_goals simp_wf
    · have h1 := (List.dropWhile_sublist (p := isDigitChar) (l := rest)).length_le
      have h2 := (List.dropWhile_sublist (p := isDigitChar) (l := rest₂)).length_le
      rw [hm] at h1
      simp only [List.length_cons] at h1
      omega
    · have h1 := (List.dropWhile_sublist (p := isDigitChar) (l := rest)).length_le
      rw [hm] at h1
      simp only [List.length_cons] at h1
      omega
    · have h1 := (List.dropWhile_sublist (p := isDigitChar) (l := rest)).length_le
      rw [hm] at h1
      omega

/-- Rational division guarded against a zero denominator (Python would raise;
the source always divides by a positive quantity at these sites). -/
def qdiv (a b : ℚ) : ℚ := a / b

/-! ### Data model

Timeline scenes and elements are JSON dictionaries in the source.  We model
the keys the engine reads and writes.  The source key `type` is called
`kind` here, `animation` is called `anim`, and reddit `post_index`,
youtube `youtube_index` and graph `index` keep their meaning as optional
integers (`None`/absent becomes `none`). -/

structure Element where
  kind : String
  timestamp : ℚ
  postIndex : Option ℤ := none
  youtubeIndex : Option ℤ := none
  index : Option ℤ := none
  keyword : Option String := none
  text : Option String := none
  anim : String := ""
  overlay : Option String := none
  position : Option String := none
deriving DecidableEq, Repr

structure Scene where
  sceneNumber : ℚ
  startTime : ℚ
  endTime : ℚ
  kind : String
  scriptText : String := ""
  statementText : Option String := none
  backgroundColor : Option String := none
  elements : List Element := []
deriving DecidableEq, Repr

/-- Per-sentence speech timing produced by the voiceover stage
(`sentence_timings` entries with keys `text`, `start_time`, `end_time`,
`duration`). -/
structure SentenceTiming where
  text : String
  startTime : ℚ
  endTime : ℚ
  duration : ℚ
deriving DecidableEq, Repr

/-- A keyword record from the script analyzer (`self.available_keywords`
entries: dicts with keys `word`, `display_type`, `sentence`). -/
structure Keyword where
  word : String
  displayType : String := "icon"
  sentence : String := ""
deriving DecidableEq, Repr

/-- `element.get('keyword', element.get('text', ''))` (lines 1588, 2994). -/
def elementPayload (e : Element) : String :=
  match e.keyword with
  | some k => k
  | none => match e.text with
    | some t => t
    | none => ""

/-- The scene duration `end_time - start_time`. -/
def sceneDur (s : Scene) : ℚ := s.endTime - s.startTime

/-! ### Stable sorting

Python `list.sort(key=...)` is a stable sort by a numeric key; Mathlib's
`List.insertionSort` with the key's `≤` relation is stable in the same
sense. -/

def leByKey (key : Scene → ℚ) (a b : Scene) : Prop := key a ≤ key b

instance (key : Scene → ℚ) : DecidableRel (leByKey key) :=
  fun a b => inferInstanceAs (Decidable (key a ≤ key b))

instance (key : Scene → ℚ) : IsTotal Scene (leByKey key) :=
  ⟨fun a b => le_total (key a) (key b)⟩

instance (key : Scene → ℚ) : IsTrans Scene (leByKey key) :=
  ⟨fun _ _ _ h1 h2 => le_trans h1 h2⟩

/-- `scenes.sort(key=lambda s: s['start_time'])`. -/
def sortByStart (scenes : List Scene) : List Scene :=
  scenes.insertionSort (leByKey Scene.startTime)

/-- `scenes.sort(key=lambda s: s['scene_number'])`. -/
def sortByNumber (scenes : List Scene) : List Scene :=
  scenes.insertionSort (leByKey Scene.sceneNumber)

def elemLE (a b : Element) : Prop := a.timestamp ≤ b.timestamp

instance : DecidableRel elemLE :=
  fun a b => inferInstanceAs (Decidable (a.timestamp ≤ b.timestamp))

instance : IsTotal Element elemLE := ⟨fun a b => le_total a.timestamp b.timestamp⟩

instance : IsTrans Element elemLE := ⟨fun _ _ _ h1 h2 => le_trans h1 h2⟩

/-- `elements.sort(key=lambda e: e.get('timestamp', 0))`. -/
def sortByTs (els : List Element) : List Element :=
  els.insertionSort elemLE

/-! ### `_validate_timeline` (lines 1024-1563)

Each numbered FIX of the source becomes one function; `validateTimeline`
composes them in source order.  FIX 6, FIX 7 and FIX 8 (lines 1492-1559)
only print diagnostics and never modify the timeline, so they have no
embedding. -/

/-- `script_text.split('.')[0].strip()`, shortened to its first 8 words when
longer (lines 1057-1060). -/
def firstSentenceOf (scriptText : String) : String :=
  let fs := pyStrip ((pySplitDot scriptText.data).headD [])
  let words := pySplit fs
  if words.length > 8 then String.mk (joinSpace (words.take 8)) else String.mk fs

/-- FIX 0 (lines 1038-1067): force the first scene to be a title card. -/
def fix0 : List Scene → List Scene
  | [] => []
  | first :: rest =>
    if first.kind ≠ "text_statement" then
      let scriptText :=
        if first.scriptText = "" then
          match first.elements.find? (fun e => e.text.getD "" ≠ "") with
          | some e => e.text.getD ""
          | none => ""
        else first.scriptText
      let first' : Scene :=
        if first.statementText.getD "" = "" ∧ scriptText ≠ "" then
          { first with
            kind := "text_statement"
            statementText := some (firstSentenceOf scriptText)
            backgroundColor := some "black" }
        else
          { first with kind := "text_statement", backgroundColor := some "black" }
      first' :: rest
    else first :: rest

/-- FIX 0.1 (lines 1069-1074): only the first scene may be a text statement. -/
def fix01 : List Scene → List Scene
  | [] => []
  | first :: rest =>
    first :: rest.map (fun s =>
      if s.kind = "text_statement" then { s with kind := "gameplay_icons" } else s)

/-- FIX 0.2 (lines 1076-1092): convert `mixed_evidence` scenes. -/
def fix02Scene (s : Scene) : Scene :=
  if s.kind = "mixed_evidence" then
    if s.elements.any (fun e => e.kind = "reddit") then { s with kind := "reddit_evidence" }
    else if s.elements.any (fun e => e.kind = "youtube") then { s with kind := "youtube_evidence" }
    else if s.elements.any (fun e => e.kind = "graph") then { s with kind := "data_graph" }
    else { s with kind := "gameplay_icons" }
  else s

def fix02 (scenes : List Scene) : List Scene := scenes.map fix02Scene

/-- FIX 0.5 (lines 1094-1109): drop scenes starting at or past the voiceover
end; cap scenes running more than a second past it. -/
def fix05 (total : ℚ) (scenes : List Scene) : List Scene :=
  scenes.filterMap (fun s =>
    if s.startTime ≥ total then none
    else if s.endTime > total + 1 then some { s with endTime := total }
    else some s)

/-- State of the three `used_*_indices` sets in FIX 0.6. -/
structure UsedSets where
  usedReddit : List ℤ := []
  usedYoutube : List ℤ := []
  usedGraph : List ℤ := []
deriving DecidableEq, Repr

/-- Convert a scene to `gameplay_icons` and clear its elements. -/
def toGameplayEmpty (s : Scene) : Scene :=
  { s with kind := "gameplay_icons", elements := [] }

/-- `for candidate in range(num): if candidate not in used: ...` -/
def firstUnused (n : ℕ) (used : List ℤ) : Option ℤ :=
  ((List.range n).find? (fun c => !used.contains ((c : ℕ) : ℤ))).map (fun c => ((c : ℕ) : ℤ))

/-- Index selection of FIX 0.6: keep a valid unused existing index, otherwise
take the first unused candidate. -/
def pickIdx (n : ℕ) (used : List ℤ) (existing : Option ℤ) : Option ℤ :=
  match existing with
  | some e =>
    if 0 ≤ e ∧ e < (n : ℤ) ∧ used.contains e = false then some e
    else firstUnused n used
  | none => firstUnused n used

/-- Element timestamp for a rebuilt evidence element (lines 1158-1162 and the
two analogous sites). -/
def evidenceElemTime (s : Scene) : ℚ :=
  let d := sceneDur s
  if d ≤ 3/5 then s.startTime + max (1/20) (d / 2)
  else min (s.startTime + 3/10) (s.endTime - 3/10)

/-- FIX 0.6 treatment of one scene (lines 1125-1255). -/
def fix06Scene (numR numY numG : ℕ) (st : UsedSets) (s : Scene) : UsedSets × Scene :=
  if s.kind = "reddit_evidence" then
    if numR = 0 then (st, toGameplayEmpty s)
    else
      let existing :=
        match s.elements.find? (fun e => e.kind = "reddit") with
        | some e => e.postIndex
        | none => none
      match pickIdx numR st.usedReddit existing with
      | none => (st, toGameplayEmpty s)
      | some i =>
        ({ st with usedReddit := i :: st.usedReddit },
         { s with elements := [{ kind := "reddit", postIndex := some i,
                                 timestamp := evidenceElemTime s, anim := "slide_up" }] })
  else if s.kind = "youtube_evidence" then
    if numY = 0 then (st, toGameplayEmpty s)
    else
      let existing :=
        match s.elements.find? (fun e => e.kind = "youtube") with
        | some e => match e.youtubeIndex with
          | some v => some v
          | none => e.index
        | none => none
      match pickIdx numY st.usedYoutube existing with
      | none => (st, toGameplayEmpty s)
      | some i =>
        ({ st with usedYoutube := i :: st.usedYoutube },
         { s with elements := [{ kind := "youtube", youtubeIndex := some i,
                                 timestamp := evidenceElemTime s, anim := "pop" }] })
  else if s.kind = "data_graph" ∨ s.kind = "graph_visualization" then
    if numG = 0 then (st, toGameplayEmpty s)
    else
      let existing :=
        match s.elements.find? (fun e => e.kind = "graph") with
        | some e => e.index
        | none => none
      match pickIdx numG st.usedGraph existing with
      | none => (st, toGameplayEmpty s)
      | some i =>
        ({ st with usedGraph := i :: st.usedGraph },
         { s with elements := [{ kind := "graph", index := some i,
                                 timestamp := evidenceElemTime s, anim := "fade_in" }] })
  else (st, s)

def fix06Aux (numR numY numG : ℕ) : UsedSets → List Scene → List Scene
  | _, [] => []
  | st, s :: rest =>
    let p := fix06Scene numR numY numG st s
    p.2 :: fix06Aux numR numY numG p.1 rest

/-- FIX 0.6 (lines 1111-1255): clean evidence scenes, keeping only their
primary element with a valid, unused asset index. -/
def fix06 (numR numY numG : ℕ) (scenes : List Scene) : List Scene :=
  fix06Aux numR numY numG {} scenes

/-- One scene of a duplicate-index scan (FIX 1 / FIX 2 / FIX 3.5 bodies).
Python iterates the original element list while rebinding
`scene['elements']`, so detection runs over the original list and removal
over the current one. -/
def dedupScan (elKind : String) (raw : Element → Option ℤ) (s : Scene) (used : List ℤ) :
    Scene × List ℤ :=
  let step := fun (acc : List Element × List ℤ) (e : Element) =>
    if e.kind = elKind then
      let idx := (raw e).getD 0
      if acc.2.contains idx then
        (acc.1.filter (fun x => x.kind ≠ elKind ∨ raw x ≠ some idx), acc.2)
      else (acc.1, idx :: acc.2)
    else acc
  let r := s.elements.foldl step (s.elements, used)
  (if r.1 = [] ∧ s.elements ≠ [] then { s with kind := "gameplay_icons", elements := r.1 }
   else { s with elements := r.1 }, r.2)

def dedupPassAux (sceneKind elKind : String) (raw : Element → Option ℤ) :
    List ℤ → List Scene → List Scene
  | _, [] => []
  | used, s :: rest =>
    if s.kind = sceneKind then
      let p := dedupScan elKind raw s used
      p.1 :: dedupPassAux sceneKind elKind raw p.2 rest
    else s :: dedupPassAux sceneKind elKind raw used rest

/-- FIX 1 (lines 1257-1273): remove repeated graph indices. -/
def fix1 (scenes : List Scene) : List Scene :=
  dedupPassAux "data_graph" "graph" (fun e => e.index) [] scenes

/-- FIX 2 (lines 1275-1289): remove repeated reddit post indices. -/
def fix2 (scenes : List Scene) : List Scene :=
  dedupPassAux "reddit_evidence" "reddit" (fun e => e.postIndex) [] scenes

/-- FIX 3.5 (lines 1305-1319): remove repeated youtube indices. -/
def fix35y (scenes : List Scene) : List Scene :=
  dedupPassAux "youtube_evidence" "youtube" (fun e => e.youtubeIndex) [] scenes

/-- The `MAX_DURATION` table (lines 1292-1303) with its default of 30. -/
def maxDurationFor (kind : String) : ℚ :=
  if kind = "gameplay_icons" then 45
  else if kind = "data_graph" then 15
  else if kind = "reddit_evidence" then 20
  else if kind = "youtube_evidence" then 15
  else if kind = "text_statement" then 10
  else if kind = "scrolling_comments" then 15
  else if kind = "split_comparison" then 15
  else if kind = "spotlight" then 10
  else if kind = "broll" then 12
  else if kind = "mixed_evidence" then 20
  else 30

/-- Scene kinds that are capped rather than split (line 1331). -/
def capKinds : List String :=
  ["data_graph", "reddit_evidence", "youtube_evidence", "split_comparison", "spotlight"]

/-- Split one over-long scene into `int(duration/max)+1` equal parts
(lines 1342-1372). -/
def splitScene (s : Scene) : List Scene :=
  let d := sceneDur s
  let maxd := maxDurationFor s.kind
  let n := (d / maxd).floor.toNat + 1
  let sd := d / (n : ℚ)
  (List.range n).map (fun (j : ℕ) =>
    let newStart := s.startTime + (j : ℚ) * sd
    let newEnd := newStart + sd
    { sceneNumber := s.sceneNumber + (j : ℚ) * (1/10),
      startTime := newStart, endTime := newEnd, kind := s.kind,
      scriptText := s.scriptText,
      elements := s.elements.filter
        (fun e => newStart ≤ e.timestamp ∧ e.timestamp < newEnd) })

/-- The equal sub-scene length `actual_dur / num_splits` of the split
(line 1346). -/
def splitDur (s : Scene) : ℚ :=
  sceneDur s / ((((sceneDur s / maxDurationFor s.kind).floor.toNat + 1 : ℕ)) : ℚ)

/-- FIX 3 treatment of one scene (lines 1321-1375): cap evidence scenes
exceeding their maximum duration, split other over-long scenes. -/
def fix3Scene (s : Scene) : List Scene :=
  let maxd := maxDurationFor s.kind
  if sceneDur s > maxd then
    if capKinds.contains s.kind then [{ s with endTime := s.startTime + maxd }]
    else splitScene s
  else [s]

def fix3 (scenes : List Scene) : List Scene :=
  (scenes.map fix3Scene).flatten

/-- Sequential scene renumbering (lines 1377-1379 and 1429-1431). -/
def renumber (scenes : List Scene) : List Scene :=
  scenes.enum.map (fun p => { p.2 with sceneNumber := (p.1 : ℚ) + 1 })

def listMinQ : List ℚ → ℚ
  | [] => 0
  | t :: ts => ts.foldl min t

def listMaxQ : List ℚ → ℚ
  | [] => 0
  | t :: ts => ts.foldl max t

/-- FIX 3.5 negative/zero-duration repair for one scene
(lines 1381-1427); `none` means the scene is unrepairable and removed. -/
def fixNegScene (s : Scene) : Option Scene :=
  if sceneDur s ≤ 0 then
    let s' :=
      if s.startTime > s.endTime then
        if s.elements ≠ [] then
          let ts := (s.elements.map (fun e => e.timestamp)).filter (fun t => t ≠ 0)
          if ts ≠ [] then
            { s with startTime := max 0 (listMinQ ts - 1/2), endTime := listMaxQ ts + 2 }
          else { s with startTime := s.endTime, endTime := s.startTime }
        else { s with startTime := s.endTime, endTime := s.startTime }
      else { s with endTime := s.startTime + 2 }
    if sceneDur s' ≤ 0 then none else some s'
  else some s

def fixNeg (scenes : List Scene) : List Scene :=
  scenes.filterMap fixNegScene

/-- FIX 4 gap/overlap repair between consecutive scenes (lines 1439-1453):
when the next scene starts more than 50ms after or before the current
scene's end, the current scene's end is moved to the next scene's start. -/
def adjustEnd (e nextStart : ℚ) : ℚ :=
  let gap := nextStart - e
  if gap > 1/20 then nextStart
  else if gap < -(1/20) then nextStart
  else e

def fixGapsPairs : List Scene → List Scene
  | [] => []
  | [s] => [s]
  | s :: t :: rest =>
    { s with endTime := adjustEnd s.endTime t.startTime } :: fixGapsPairs (t :: rest)

/-- The pair tolerance of FIX 4's gap loop (lines 1437-1453): a consecutive
pair whose boundary gap is within 0.05s is left untouched. -/
def gapTol (a b : Scene) : Prop :=
  -(1/20) ≤ b.startTime - a.endTime ∧ b.startTime - a.endTime ≤ 1/20

/-- FIX 4 first-scene adjustment (lines 1455-1471). -/
def fixFirstScene : List Scene → List Scene
  | [] => []
  | first :: rest =>
    if first.startTime > 1/100 then
      let off := first.startTime
      { first with
        startTime := 0
        elements := first.elements.map
          (fun e => { e with timestamp := max 0 (e.timestamp - off) }) } :: rest
    else first :: rest

/-- FIX 4 last-scene extension (lines 1473-1477). -/
def fixLastScene (total : ℚ) : List Scene → List Scene
  | [] => []
  | [s] => if s.endTime < total - 1/2 then [{ s with endTime := total }] else [s]
  | s :: rest => s :: fixLastScene total rest

/-- FIX 4 (lines 1433-1477): sort by start time, close gaps and overlaps,
anchor the first scene at 0 and extend the last scene to the total
duration. -/
def fix4 (total : ℚ) (scenes : List Scene) : List Scene :=
  match scenes with
  | [] => []
  | _ :: _ => fixLastScene total (fixFirstScene (fixGapsPairs (sortByStart scenes)))

def scaleScene (f : ℚ) (s : Scene) : Scene :=
  { s with
    startTime := s.startTime * f
    endTime := s.endTime * f
    elements := s.elements.map (fun e => { e with timestamp := e.timestamp * f }) }

/-- FIX 5 (lines 1479-1490): scale everything down when the timeline runs
more than 10% past the total duration. -/
def fix5 (total : ℚ) (scenes : List Scene) : List Scene :=
  match scenes.getLast? with
  | none => scenes
  | some last =>
    if last.endTime > total * (11/10) then
      scenes.map (scaleScene (total / last.endTime))
    else scenes

/-- `_validate_timeline` (lines 1024-1563), composing all repair passes in
source order.  `numR`, `numY`, `numG` are the `_metadata` asset counts. -/
def validateTimeline (numR numY numG : ℕ) (total : ℚ) (scenes : List Scene) : List Scene :=
  let s1 := fix05 total (fix02 (fix01 (fix0 scenes)))
  let s2 := fix35y (fix2 (fix1 (fix06 numR numY numG s1)))
  let s3 := renumber (fixNeg (renumber (fix3 s2)))
  fix5 total (fix4 total s3)

/-! ### Sentence matching in `assign_timing_with_sentences` (lines 1993-2123)

For each element the source tries, in order: the analyzer-provided source
sentence (lines 2012-2032), a shared numeric token when the keyword contains
a digit (lines 2035-2052), and a three-strategy fallback scored per sentence
(lines 2057-2123).  The result is the matched sentence together with the
computed character position of the keyword in it. -/

def normStr (s : String) : List Char := normChars s.data

def cleanStr (s : String) : List Char := cleanChars s.data

/-- Source-sentence stage (lines 2012-2032).  `srcMap` is
`keyword_sentence_map`; the best candidate maximizes
`min(len(src_norm), len(sent_norm))`, first maximum in iteration order. -/
def sourceStage (srcMap : List (String × List String)) (sents : List SentenceTiming)
    (kwClean : List Char) : Option (SentenceTiming × ℤ) :=
  let sources := match srcMap.find? (fun p => p.1.data = kwClean) with
    | some p => p.2
    | none => []
  let best := sources.foldl (fun (acc : Option SentenceTiming × ℕ) srcText =>
    let srcNorm := normStr srcText
    if srcNorm = [] then acc
    else sents.foldl (fun (acc2 : Option SentenceTiming × ℕ) sent =>
      let sentNorm := normStr sent.text
      if pyContains sentNorm srcNorm || pyContains srcNorm sentNorm then
        let score := min srcNorm.length sentNorm.length
        if score > acc2.2 then (some sent, score) else acc2
      else acc2) acc) (none, 0)
  match best.1 with
  | some sent => some (sent, pyFind (normStr sent.text) kwClean)
  | none => none

/-- Numeric-token stage (lines 2035-2052): runs only when the keyword
contains a digit; candidates are ordered by longest token then earliest
sentence start, stably. -/
def numericStage (sents : List SentenceTiming) (kwLower : List Char) :
    Option (SentenceTiming × ℤ) :=
  if hasDigit kwLower then
    let toks := digitTokens (dropChar ',' kwLower)
    let cands : List (ℕ × SentenceTiming × List Char) :=
      (sents.map (fun sent =>
        toks.filterMap (fun num =>
          if num ≠ [] ∧ pyContains (dropChar ',' sent.text.data) num then
            some (num.length, sent, num)
          else none))).flatten
    let best := cands.foldl (fun (acc : Option (ℕ × SentenceTiming × List Char)) c =>
      match acc with
      | none => some c
      | some cur =>
        if c.1 > cur.1 ∨ (c.1 = cur.1 ∧ c.2.1.startTime < cur.2.1.startTime) then some c
        else some cur) none
    match best with
    | some (_, sent, num) =>
      some (sent, pyFind (normStr sent.text) (dropChar '.' num))
    | none => none
  else none

/-- One fallback candidate per sentence (lines 2061-2112): direct substring
(score 3), consecutive word run (score 2), or at least 60% shared words
(score 1). -/
structure MatchCand where
  sent : SentenceTiming
  score : ℕ
  frac : ℚ
  pos : ℤ
deriving Repr

def fallbackCand (kwClean : List Char) (kwWords : List (List Char))
    (sent : SentenceTiming) : Option MatchCand :=
  let sentClean := cleanStr sent.text
  let sentWords := pySplit sentClean
  if kwClean ≠ [] ∧ pyContains sentClean kwClean then
    some { sent := sent, score := 3, frac := 1, pos := pyFind sentClean kwClean }
  else if kwWords ≠ [] then
    let nPos := if kwWords.length ≤ sentWords.length then
      sentWords.length - kwWords.length + 1 else 0
    match (List.range nPos).find? (fun i =>
      (List.range kwWords.length).all (fun j =>
        match sentWords.get? (i + j) with
        | some w => pyContains w ((kwWords.get? j).getD [])
        | none => false)) with
    | some i =>
      some { sent := sent, score := 2, frac := 1,
             pos := ((joinSpace (sentWords.take i)).length : ℤ) }
    | none =>
      if kwWords.length > 1 then
        let found := (kwWords.filter (fun w => sentWords.contains w)).length
        let fr : ℚ := (found : ℚ) / (kwWords.length : ℚ)
        if fr ≥ 3/5 then
          let p := match kwWords.find? (fun w => pyContains sentClean w) with
            | some w => pyFind sentClean w
            | none => 0
          some { sent := sent, score := 1, frac := fr, pos := p }
        else none
      else none
  else none

/-- The strict candidate order of the fallback stage's stable sort by
`(-score, -ratio, startTime)` (lines 2114-2118): `c` replaces `cur` exactly
when it is strictly better. -/
def betterCand (c cur : MatchCand) : Prop :=
  c.score > cur.score ∨ (c.score = cur.score ∧ c.frac > cur.frac) ∨
  (c.score = cur.score ∧ c.frac = cur.frac ∧ c.sent.startTime < cur.sent.startTime)

instance (c cur : MatchCand) : Decidable (betterCand c cur) := by
  unfold betterCand
  infer_instance

/-- First minimum of the stable sort, as a fold. -/
def pickBestCand (cands : List MatchCand) (acc : Option MatchCand) : Option MatchCand :=
  cands.foldl (fun acc c =>
    match acc with
    | none => some c
    | some cur => if betterCand c cur then some c else some cur) acc

/-- Fallback stage (lines 2057-2123): best candidate by
`(-score, -ratio, startTime)`, stably. -/
def fallbackStage (sents : List SentenceTiming) (kwClean : List Char) :
    Option (SentenceTiming × ℤ) :=
  let kwWords := pySplit kwClean
  (pickBestCand (sents.filterMap (fallbackCand kwClean kwWords)) none).map
    (fun c => (c.sent, c.pos))

/-- The full element-to-sentence matcher (lines 1993-2123). -/
def findElementSentence (srcMap : List (String × List String))
    (sents : List SentenceTiming) (elementKeywordRaw : String) :
    Option (SentenceTiming × ℤ) :=
  let kwLower := pyStrip (elementKeywordRaw.data.map asciiLower)
  let kwClean := cleanChars kwLower
  match sourceStage srcMap sents kwClean with
  | some r => some r
  | none =>
    match numericStage sents kwLower with
    | some r => some r
    | none => fallbackStage sents kwClean

/-- Timestamp placement inside the matched sentence (lines 2125-2152). -/
def placeTimestamp (sent : SentenceTiming) (pos : ℤ) : ℚ :=
  let sentClean := cleanStr sent.text
  if sentClean.length > 0 then
    let p : ℤ := max 0 (min pos ((sentClean.length : ℤ) - 1))
    let fr0 : ℚ := (p : ℚ) / (sentClean.length : ℚ)
    let fr : ℚ := max 0 (min fr0 1)
    let ts := sent.startTime + fr * sent.duration
    max sent.startTime (min ts (sent.endTime - 1/10))
  else sent.startTime + 1/10

/-! ### Evidence scene construction (lines 2477-2677)

Given the matched `(start, end)` span for an asset, the source clamps the
start past the title card, clamps the duration to the per-kind bounds and
truncates at the voiceover end, dropping scenes shorter than one second. -/

/-- Reddit evidence scene from a matched span (lines 2499-2516).  The Python
expression `end - start if end else 6.0` tests the float for truthiness, so
an exactly-zero end falls back to 6.0. -/
def mkRedditScene (titleCardEnd actual : ℚ) (idx : ℕ) (s e : ℚ) (desc : String) :
    Option Scene :=
  let start := max (titleCardEnd + 1/10) s
  let targetDur := max 5 (min 8 (if e = 0 then 6 else e - start))
  let endT := min (start + targetDur) actual
  if endT - start < 1 then none
  else some { sceneNumber := 0, startTime := start, endTime := endT,
              kind := "reddit_evidence", scriptText := desc,
              elements := [{ kind := "reddit", postIndex := some (idx : ℤ),
                             timestamp := min (start + 3/10) (endT - 3/10),
                             anim := "slide_up" }] }

/-- YouTube evidence scene from a matched span (lines 2605-2624). -/
def mkYoutubeScene (titleCardEnd actual : ℚ) (idx : ℕ) (s e : ℚ) (title : String) :
    Option Scene :=
  let start := max (titleCardEnd + 1/10) s
  let targetDur := max 4 (min 6 (e - start))
  let endT := min (start + targetDur) actual
  if endT - start < 1 then none
  else some { sceneNumber := 0, startTime := start, endTime := endT,
              kind := "youtube_evidence", scriptText := title,
              elements := [{ kind := "youtube", youtubeIndex := some (idx : ℤ),
                             timestamp := min (start + 3/10) (endT - 3/10),
                             anim := "pop" }] }

/-- Graph evidence scene from a matched span (lines 2655-2677). -/
def mkGraphScene (titleCardEnd actual : ℚ) (idx : ℕ) (s e : ℚ) (desc : String) :
    Option Scene :=
  let start := max (titleCardEnd + 1/10) s
  let targetDur := max 4 (min 6 (e - start))
  let endT := min (start + targetDur) actual
  if endT - start < 1 then none
  else some { sceneNumber := 0, startTime := start, endTime := endT,
              kind := "data_graph", scriptText := desc,
              elements := [{ kind := "graph", index := some (idx : ℤ),
                             timestamp := min (start + 3/10) (endT - 3/10),
                             anim := "fade_in" }] }

/-- Reposition the primary element of a paced evidence scene (lines 2709-2710). -/
def paceElems (s : Scene) : Scene :=
  { s with elements := s.elements.map (fun e =>
      { e with timestamp := min (s.startTime + 3/10) (s.endTime - 3/10) }) }

/-- Intro pacing walk (lines 2690-2710) over the start-sorted evidence
scenes, carrying `last_end` and `intro_total`. -/
def introPaceAux (windowEnd actual : ℚ) : ℚ → ℚ → List Scene → List Scene
  | _, _, [] => []
  | lastEnd, introTotal, s :: rest =>
    if s.startTime ≤ windowEnd then
      let dur0 := sceneDur s
      let s1 := if dur0 > 4 then { s with endTime := s.startTime + 4 } else s
      let dur := if dur0 > 4 then 4 else dur0
      let s2 :=
        if s1.startTime - lastEnd < 1 then
          { s1 with startTime := lastEnd + 1, endTime := min (lastEnd + 1 + dur) actual }
        else s1
      if introTotal + dur > 6 then
        let ns := max s2.startTime (windowEnd + 1/10)
        paceElems { s2 with startTime := ns, endTime := min (ns + dur) actual } ::
          introPaceAux windowEnd actual lastEnd introTotal rest
      else
        paceElems s2 :: introPaceAux windowEnd actual s2.endTime (introTotal + dur) rest
    else s :: introPaceAux windowEnd actual lastEnd introTotal rest

/-- INTRO PACING (lines 2679-2710): bound evidence density in the first ten
seconds after the title card. -/
def introPace (titleCardEnd actual : ℚ) (evidenceScenes : List Scene) : List Scene :=
  match evidenceScenes with
  | [] => []
  | _ :: _ =>
    introPaceAux (min actual (titleCardEnd + 10)) actual titleCardEnd 0
      (sortByStart evidenceScenes)

/-! ### Gameplay gap filling (lines 2725-2785)

After the title card and evidence scenes are assembled, gaps larger than
0.1s are covered by `gameplay_icons` scenes (or by extending an adjacent
gameplay scene). -/

def gapScene (a b : ℚ) : Scene :=
  { sceneNumber := 0, startTime := a, endTime := b, kind := "gameplay_icons",
    scriptText := "(auto-filled gap)", elements := [] }

/-- One step of the gap-filling fold; the accumulator is the filled list in
reverse order. -/
def fillGapsStep (acc : List Scene) (s : Scene) : List Scene :=
  match acc with
  | [] => if s.startTime > 1/10 then [s, gapScene 0 s.startTime] else [s]
  | prev :: rest =>
    if s.startTime - prev.endTime > 1/10 then
      if prev.kind = "gameplay_icons" then
        s :: { prev with endTime := s.startTime } :: rest
      else s :: gapScene prev.endTime s.startTime :: prev :: rest
    else s :: prev :: rest

/-- Closing the gap at the end of the video (lines 2768-2782); the input is
still reversed. -/
def fillGapsEnd (actual : ℚ) : List Scene → List Scene
  | [] => []
  | last :: rest =>
    if last.endTime < actual - 1/10 then
      if last.kind = "gameplay_icons" then { last with endTime := actual } :: rest
      else gapScene last.endTime actual :: last :: rest
    else last :: rest

/-- Gap filling (lines 2727-2785): sort by start, fill the leading gap, all
internal gaps and the trailing gap.  An empty scene list is returned
unchanged (the source guards with `if timeline['scenes']`). -/
def fillGaps (actual : ℚ) (scenes : List Scene) : List Scene :=
  match scenes with
  | [] => []
  | _ :: _ => (fillGapsEnd actual ((sortByStart scenes).foldl fillGapsStep [])).reverse

/-! ### Stagger pass (lines 2942-3004) -/

def staggerKinds : List String := ["icon", "text", "meme", "quote"]

/-- The staggering walk (lines 2955-2987): `prev` is `prev_time`; elements
pushed past `scene_end - 0.2` are marked with timestamp `-100` and removed
afterwards. -/
def staggerWalk (sceneStart sceneEnd : ℚ) : ℚ → List Element → List Element
  | _, [] => []
  | prev, e :: rest =>
    if staggerKinds.contains e.kind then
      let t1 := if e.timestamp < prev + 7/10 then prev + 7/10 else e.timestamp
      if t1 ≥ sceneEnd - 1/5 then
        { e with timestamp := -100 } :: staggerWalk sceneStart sceneEnd prev rest
      else
        let t2 := if t1 < sceneStart then sceneStart + 3/20 else t1
        { e with timestamp := t2 } :: staggerWalk sceneStart sceneEnd t2 rest
    else e :: staggerWalk sceneStart sceneEnd prev rest

/-- Stagger pass over one scene (lines 2942-2990): sort elements by
timestamp, walk with a 0.7s minimum gap, drop marked elements.  Scenes
without elements are untouched. -/
def staggerScene (s : Scene) : Scene :=
  if s.elements.length < 1 then s
  else
    let els := staggerWalk s.startTime s.endTime (s.startTime - 1) (sortByTs s.elements)
    { s with elements := els.filter (fun e => e.timestamp > -1) }

/-! ### `_fill_empty_scenes` (lines 1565-1818)

The density balancer: keywords already used anywhere in the timeline
(compared lower-cased) are excluded; the remaining pool is consumed by two
passes, a count-deficit pass over sparse gameplay scenes and an internal-gap
pass.  `timeMap` is `self.keyword_time_map` (normalized keyword text to the
start times of its matched sentences). -/

def lowerStr (s : String) : String := String.mk (s.data.map asciiLower)

/-- Keywords already used in the timeline, lower-cased (lines 1585-1590). -/
def usedKeywords (scenes : List Scene) : List String :=
  (scenes.map (fun s => s.elements.filterMap (fun e =>
    let kw := elementPayload e
    if kw ≠ "" then some (lowerStr kw) else none))).flatten

/-- `_get_kw_time` (lines 1648-1656). -/
def getKwTime (useTiming : Bool) (timeMap : List (String × List ℚ)) (kw : Keyword) :
    Option ℚ :=
  if useTiming = false ∨ timeMap = [] then none
  else
    let key := String.mk (normStr kw.word)
    match timeMap.find? (fun p => p.1 = key) with
    | some p => if p.2 ≠ [] then some (listMinQ p.2) else none
    | none => none

/-- Timed branch of `_pop_keyword_for_window` (lines 1660-1669): earliest
matched time wins, earliest list position on ties. -/
def popTimed (useTiming : Bool) (timeMap : List (String × List ℚ)) (a b : ℚ)
    (unused : List Keyword) : Option (Keyword × List Keyword) :=
  if useTiming ∧ timeMap ≠ [] then
    let timed := unused.enum.filterMap (fun p =>
      match getKwTime useTiming timeMap p.2 with
      | some t => if a ≤ t ∧ t ≤ b then some (p.1, t) else none
      | none => none)
    match timed.foldl (fun (acc : Option (ℕ × ℚ)) c =>
      match acc with
      | none => some c
      | some cur => if c.2 < cur.2 then some c else some cur) none with
    | some (i, _) =>
      match unused.get? i with
      | some kw => some (kw, unused.eraseIdx i)
      | none => none
    | none => none
  else none

/-- Icon fallback of `_pop_keyword_for_window` (lines 1671-1677). -/
def popIconFallback (unused : List Keyword) : Option (Keyword × List Keyword) :=
  match unused.enum.find? (fun p => p.2.displayType ≠ "text") with
  | some (i, _) =>
    match unused.get? i with
    | some kw => some (kw, unused.eraseIdx i)
    | none => none
  | none => none

def popKeywordForWindow (useTiming : Bool) (timeMap : List (String × List ℚ))
    (a b : ℚ) (unused : List Keyword) : Option (Keyword × List Keyword) :=
  match popTimed useTiming timeMap a b unused with
  | some r => some r
  | none => popIconFallback unused

/-- Expected element count of a gameplay scene (lines 1615-1619). -/
def expectedElems (s : Scene) : ℕ :=
  let d := sceneDur s
  let exp := max 2 ((d / (5/2)).floor.toNat)
  if s.startTime < 10 then max exp ((d / (3/2)).floor.toNat) else exp

/-- The element built for a popped keyword (lines 1722-1732, 1799-1807). -/
def mkFillElement (kw : Keyword) (ts : ℚ) : Element :=
  if kw.displayType = "text" then
    { kind := "text", timestamp := ts, text := some kw.word, anim := "zoom_in" }
  else
    { kind := "icon", timestamp := ts, keyword := some kw.word, anim := "scale_in" }

/-- Inner loop of the count-deficit pass (lines 1697-1737); `i` is the loop
index, the second argument counts the remaining iterations. -/
def fillLoop (useTiming : Bool) (timeMap : List (String × List ℚ))
    (sceneStart sceneEnd step : ℚ) :
    ℕ → ℕ → List Element → List ℚ → List Keyword →
    List Element × List Keyword
  | _, 0, els, _, unused => (els, unused)
  | i, rem + 1, els, times, unused =>
    if unused = [] then (els, unused)
    else
      let ts0 := sceneStart + ((i : ℚ) + 1) * step
      let ts := if times.any (fun et => |ts0 - et| < 3/2) then ts0 + 4/5 else ts0
      if ts ≥ sceneEnd - 1/2 then
        fillLoop useTiming timeMap sceneStart sceneEnd step (i + 1) rem els times unused
      else
        match popKeywordForWindow useTiming timeMap sceneStart sceneEnd unused with
        | none => (els, unused)
        | some (kw, unused') =>
          fillLoop useTiming timeMap sceneStart sceneEnd step (i + 1) rem
            (els ++ [mkFillElement kw ts]) (times ++ [ts]) unused'

/-- Fill one qualifying scene (lines 1679-1742). -/
def fillScene (useTiming : Bool) (timeMap : List (String × List ℚ))
    (unused : List Keyword) (s : Scene) : Scene × List Keyword :=
  let deficit := expectedElems s - s.elements.length
  let step := sceneDur s / ((deficit : ℚ) + 1)
  let r := fillLoop useTiming timeMap s.startTime s.endTime step 0 deficit
    s.elements (s.elements.map (fun e => e.timestamp)) unused
  let s' := if r.1.length > s.elements.length then { s with elements := sortByTs r.1 }
    else { s with elements := r.1 }
  (s', r.2)

/-- Pass 1 over the scene list (lines 1607-1742): fill gameplay scenes whose
element count is below expectation. -/
def fillPass1 (useTiming : Bool) (timeMap : List (String × List ℚ)) :
    List Keyword → List Scene → List Scene × List Keyword
  | unused, [] => ([], unused)
  | unused, s :: rest =>
    if (s.kind = "gameplay_icons" ∨ s.kind = "gameplay_only") ∧ sceneDur s > 4
        ∧ s.elements.length < expectedElems s then
      let p := fillScene useTiming timeMap unused s
      let q := fillPass1 useTiming timeMap p.2 rest
      (p.1 :: q.1, q.2)
    else
      let q := fillPass1 useTiming timeMap unused rest
      (s :: q.1, q.2)

/-- Internal element gaps of a scene (lines 1760-1767). -/
def gapsOf (thr sceneStart sceneEnd : ℚ) (times : List ℚ) : List (ℚ × ℚ) :=
  match times with
  | [] => []
  | t0 :: _ =>
    (if t0 - sceneStart > thr then [(sceneStart, t0)] else []) ++
    (times.zip times.tail).filterMap
      (fun p => if p.2 - p.1 > thr then some (p.1, p.2) else none) ++
    (if sceneEnd - times.getLastD 0 > thr then [(times.getLastD 0, sceneEnd)] else [])

/-- Inner loop of the gap pass (lines 1783-1811). -/
def gapFillLoop (useTiming : Bool) (timeMap : List (String × List ℚ))
    (gapStart gapEnd step sceneEnd : ℚ) :
    ℕ → ℕ → List Element → List ℚ → List Keyword →
    List Element × List ℚ × List Keyword
  | _, 0, els, times, unused => (els, times, unused)
  | i, rem + 1, els, times, unused =>
    if unused = [] then (els, times, unused)
    else
      let ts := gapStart + ((i : ℚ) + 1) * step
      if ts ≥ sceneEnd - 1/2 then
        gapFillLoop useTiming timeMap gapStart gapEnd step sceneEnd (i + 1) rem els times unused
      else if times.any (fun et => |ts - et| < 6/5) then
        gapFillLoop useTiming timeMap gapStart gapEnd step sceneEnd (i + 1) rem els times unused
      else
        match popKeywordForWindow useTiming timeMap gapStart gapEnd unused with
        | none => (els, times, unused)
        | some (kw, unused') =>
          gapFillLoop useTiming timeMap gapStart gapEnd step sceneEnd (i + 1) rem
            (els ++ [mkFillElement kw ts]) (times ++ [ts]) unused'

/-- Loop over the gaps of one scene (lines 1772-1813); the element list is
re-sorted after each gap, mirroring the in-loop sort of the source. -/
def gapFillGaps (useTiming : Bool) (timeMap : List (String × List ℚ))
    (thr sceneEnd : ℚ) :
    List (ℚ × ℚ) → List Element → List ℚ → List Keyword →
    List Element × List Keyword
  | [], els, _, unused => (els, unused)
  | g :: rest, els, times, unused =>
    if unused = [] then (els, unused)
    else
      let len := g.2 - g.1
      if len < thr then gapFillGaps useTiming timeMap thr sceneEnd rest els times unused
      else
        let n := min (max 1 ((len / (5/2)).floor.toNat)) unused.length
        let step := len / ((n : ℚ) + 1)
        let r := gapFillLoop useTiming timeMap g.1 g.2 step sceneEnd 0 n els times unused
        gapFillGaps useTiming timeMap thr sceneEnd rest (sortByTs r.1) r.2.1 r.2.2

/-- Pass 2 over the scene list (lines 1744-1813): fill internal gaps of
gameplay scenes; the pass stops entirely once the pool is empty. -/
def fillPass2 (useTiming : Bool) (timeMap : List (String × List ℚ)) :
    List Keyword → List Scene → List Scene × List Keyword
  | unused, [] => ([], unused)
  | unused, s :: rest =>
    if ¬ (s.kind = "gameplay_icons" ∨ s.kind = "gameplay_only") then
      let q := fillPass2 useTiming timeMap unused rest
      (s :: q.1, q.2)
    else if unused = [] then (s :: rest, unused)
    else if s.elements.length < 1 then
      let q := fillPass2 useTiming timeMap unused rest
      (s :: q.1, q.2)
    else
      let thr : ℚ := if s.startTime < 10 then 2 else 3
      let times := (s.elements.map (fun e => e.timestamp)).insertionSort (fun a b => a ≤ b)
      if times = [] then
        let q := fillPass2 useTiming timeMap unused rest
        (s :: q.1, q.2)
      else
        let gaps := gapsOf thr s.startTime s.endTime times
        if gaps = [] then
          let q := fillPass2 useTiming timeMap unused rest
          (s :: q.1, q.2)
        else
          let r := gapFillGaps useTiming timeMap thr s.endTime gaps s.elements times unused
          let q := fillPass2 useTiming timeMap r.2 rest
          ({ s with elements := r.1 } :: q.1, q.2)

/-- `_fill_empty_scenes` (lines 1565-1818).  `available` is
`self.available_keywords`; the `total_duration` parameter of the source is
only printed, never used. -/
def fillEmptyScenes (available : List Keyword) (timeMap : List (String × List ℚ))
    (useTiming : Bool) (scenes : List Scene) : List Scene :=
  if available = [] then scenes
  else
    let used := usedKeywords scenes
    let unused := available.filter (fun kw => used.contains (lowerStr kw.word) = false)
    if unused = [] then scenes
    else
      let p := fillPass1 useTiming timeMap unused scenes
      (fillPass2 useTiming timeMap p.2 p.1).1

/-- Occurrences of payload `p` (`element.get('keyword', element.get('text',
''))`) across a scene list. -/
def payloadCount (p : String) (scenes : List Scene) : ℕ :=
  (scenes.map (fun s => s.elements.countP (fun e => elementPayload e = p))).sum

/-- Reddit post indices referenced by a reddit evidence scene. -/
def sceneRedditIdxs (s : Scene) : List ℤ :=
  if s.kind = "reddit_evidence" then
    s.elements.filterMap (fun e => if e.kind = "reddit" then e.postIndex else none)
  else []

def redditIdxs (scenes : List Scene) : List ℤ :=
  (scenes.map sceneRedditIdxs).flatten

/-- Youtube indices referenced by a youtube evidence scene. -/
def sceneYoutubeIdxs (s : Scene) : List ℤ :=
  if s.kind = "youtube_evidence" then
    s.elements.filterMap (fun e => if e.kind = "youtube" then e.youtubeIndex else none)
  else []

def youtubeIdxs (scenes : List Scene) : List ℤ :=
  (scenes.map sceneYoutubeIdxs).flatten

/-- Graph indices referenced by a graph scene. -/
def sceneGraphIdxs (s : Scene) : List ℤ :=
  if s.kind = "data_graph" ∨ s.kind = "graph_visualization" then
    s.elements.filterMap (fun e => if e.kind = "graph" then e.index else none)
  else []

def graphIdxs (scenes : List Scene) : List ℤ :=
  (scenes.map sceneGraphIdxs).flatten

/-! ### Concrete instances used in the theorems -/

/-- Scenario A of the spec: one sentence spanning `[0, 10]` with the keyword
at word position 2 of 5. -/
def c5sent : SentenceTiming :=
  { text := "My Edgar is so broken", startTime := 0, endTime := 10, duration := 10 }

/-- A rebuilt reddit evidence element as FIX 0.6 produces it. -/
def c3elem (i : ℤ) (ts : ℚ) : Element :=
  { kind := "reddit", postIndex := some i, timestamp := ts, anim := "slide_up" }

/-- Scenario C of the spec: two reddit evidence scenes both claiming
post index 0. -/
def c3scene1 : Scene :=
  { sceneNumber := 1, startTime := 0, endTime := 6, kind := "reddit_evidence",
    elements := [{ kind := "reddit", timestamp := 0, postIndex := some 0 }] }

def c3scene2 : Scene :=
  { sceneNumber := 2, startTime := 6, endTime := 12, kind := "reddit_evidence",
    elements := [{ kind := "reddit", timestamp := 6, postIndex := some 0 }] }


/-- The truncated reddit evidence scene produced by
`mkRedditScene 0 10 0 8 9`: only two seconds long. -/
def c4scene : Scene :=
  { sceneNumber := 0, startTime := 8, endTime := 10, kind := "reddit_evidence",
    scriptText := "d",
    elements := [{ kind := "reddit", postIndex := some 0, timestamp := 83/10,
                   anim := "slide_up" }] }

/-- A well-sized reddit evidence scene, used by the C4 witness. -/
def c4wScene : Scene :=
  { sceneNumber := 0, startTime := 20, endTime := 26, kind := "reddit_evidence",
    scriptText := "d",
    elements := [{ kind := "reddit", postIndex := some 0, timestamp := 203/10,
                   anim := "slide_up" }] }


/-- Gap relation between consecutive final scenes: ordered, with at most a
0.1s gap (the tolerance of the gap-filling pass at lines 2748-2750). -/
def gapOK (a b : Scene) : Prop :=
  a.endTime ≤ b.startTime ∧ b.startTime - a.endTime ≤ 1/10

/-- Invariant of the gap-filling fold accumulator (the accumulator stores
the output in reverse). -/
def accInv (acc : List Scene) : Prop :=
  acc ≠ [] ∧
  acc.Chain' (fun x y => gapOK y x) ∧
  (∀ t ∈ acc, 0 < sceneDur t) ∧
  (∀ t, acc.getLast? = some t → 0 ≤ t.startTime ∧ t.startTime ≤ 1/10)

/-- A title card followed by an evidence scene placed exactly 0.1s after it,
a normal product of the evidence rebuild (`start = max(title_card_end + 0.1,
match_start)`, line 2499). -/
def c1title : Scene :=
  { sceneNumber := 1, startTime := 0, endTime := 3, kind := "text_statement" }

def c1reddit : Scene :=
  { sceneNumber := 0, startTime := 31/10, endTime := 81/10, kind := "reddit_evidence",
    elements := [{ kind := "reddit", timestamp := 34/10, postIndex := some 0,
                   anim := "slide_up" }] }

/-- Two sentences for the matcher: the first mentions the number 60, the
second contains the exact phrase "60 damage". -/
def c8sent1 : SentenceTiming :=
  { text := "He played 60 games", startTime := 1, endTime := 4, duration := 3 }

def c8sent2 : SentenceTiming :=
  { text := "It deals 60 damage per hit", startTime := 5, endTime := 9, duration := 4 }

/-- Scenario E of the spec: a 50-second Ambient scene (max 45s) with one
element in each half, and an over-long reddit evidence scene to be capped. -/
def c7elem10 : Element := { kind := "icon", timestamp := 10 }

def c7elem30 : Element := { kind := "icon", timestamp := 30 }

def c7scene : Scene :=
  { sceneNumber := 1, startTime := 0, endTime := 50, kind := "gameplay_icons",
    elements := [c7elem10, c7elem30] }

def c7cap : Scene :=
  { sceneNumber := 2, startTime := 0, endTime := 25, kind := "reddit_evidence" }

/-- A keyword pool entry and an empty gameplay scene for the density
balancer. -/
def c9kw : Keyword := { word := "edgar" }

def c9gp : Scene :=
  { sceneNumber := 1, startTime := 0, endTime := 10, kind := "gameplay_icons" }

/-- A timeline whose reddit scene gets truncated by the validator while its
element stays past the new boundary, so a second run moves the element. -/
def c10title : Scene :=
  { sceneNumber := 1, startTime := 0, endTime := 10, kind := "text_statement",
    statementText := some "hello" }

def c10reddit : Scene :=
  { sceneNumber := 2, startTime := 10, endTime := 20, kind := "reddit_evidence",
    elements := [{ kind := "reddit", timestamp := 103/10, postIndex := some 0 }] }

def c10game : Scene :=
  { sceneNumber := 3, startTime := 102/10, endTime := 30, kind := "gameplay_icons" }

/-- An Ambient scene carrying a stray reddit element with post index 0 next
to a genuine reddit evidence scene. -/
def c2amb : Scene :=
  { sceneNumber := 1, startTime := 0, endTime := 10, kind := "gameplay_icons",
    elements := [{ kind := "reddit", timestamp := 5, postIndex := some 0 }] }

def c2red : Scene :=
  { sceneNumber := 2, startTime := 10, endTime := 18, kind := "reddit_evidence",
    elements := [{ kind := "reddit", timestamp := 11, postIndex := some 0 }] }

/-- Scenario B of the spec: two keywords at 4.0s and 4.05s in one scene. -/
def c6sceneB : Scene :=
  { sceneNumber := 2, startTime := 0, endTime := 10, kind := "gameplay_icons",
    elements := [
      { kind := "icon", timestamp := 4, keyword := some "gadget" },
      { kind := "icon", timestamp := 4 + 1/20, keyword := some "shield" }] }

/-- A scene where the staggered push crosses the scene end: the second
element is pushed from 4.6s to 5.2s, past `5 - 0.2`, and dropped. -/
def c6sceneDrop : Scene :=
  { sceneNumber := 2, startTime := 0, endTime := 5, kind := "gameplay_icons",
    elements := [
      { kind := "icon", timestamp := 9/2, keyword := some "gadget" },
      { kind := "icon", timestamp := 23/5, keyword := some "shield" }] }

/-! ## Theorems -/

/-! ### Helper lemmas about the text utilities -/

theorem charsStartsWith_length {s pat : List Char} (h : charsStartsWith s pat = true) :
    pat.length ≤ s.length := by
  induction pat generalizing s with
  | nil => simp
  | cons p ps ih =>
    cases s with
    | nil => simp [charsStartsWith] at h
    | cons c cs =>
      simp only [charsStartsWith, Bool.and_eq_true] at h
      have := ih h.2
      simpa using Nat.succ_le_succ this

theorem charsFindAux_bound {s pat : List Char} {i j : ℕ}
    (h : charsFindAux s pat i = some j) : i ≤ j ∧ (j - i) + pat.length ≤ s.length := by
  induction s generalizing i with
  | nil =>
    rw [charsFindAux] at h
    by_cases hs : charsStartsWith [] pat = true
    · simp only [hs, if_pos] at h
      cases h
      have := charsStartsWith_length hs
      simpa using this
    · simp [hs] at h
  | cons c cs ih =>
    rw [charsFindAux] at h
    by_cases hs : charsStartsWith (c :: cs) pat = true
    · simp only [hs, if_pos] at h
      cases h
      have := charsStartsWith_length hs
      omega
    · simp only [hs, if_neg, Bool.false_eq_true, not_false_iff] at h
      have := ih h
      simp only [List.length_cons]
      omega

/-! ### Claim C5 -/

/-- **C5** (amended): when the keyword is found in the punctuation-stripped
lower-cased sentence text at character offset `pos`, the engine's new
timestamp is exactly
`clamp(startTime + (pos / len(sentenceClean)) * duration, startTime, endTime - 0.1)`
(lines 2125-2148; the offset clamp into `[0, len-1]` and the ratio clamp
into `[0,1]` are both no-ops for a found offset).  The spec's Scenario A
figure of 4.0s is wrong for the code: the ratio is a character ratio, so a
keyword at word position 2 of 5 lands near 20% of the sentence, not 40%
(see the counterexample). -/
theorem c5_keyword_timestamp_formula (sent : SentenceTiming) (kw : List Char) (pos : ℕ)
    (hf : charsFindAux (cleanStr sent.text) kw 0 = some pos) (hk : kw ≠ []) :
    placeTimestamp sent (pyFind (cleanStr sent.text) kw) =
      max sent.startTime
        (min (sent.startTime + ((pos : ℚ) / (((cleanStr sent.text).length : ℚ))) * sent.duration)
          (sent.endTime - 1/10)) := by
  have hb := charsFindAux_bound hf
  have hkl : 1 ≤ kw.length := by
    cases kw with
    | nil => simp at hk
    | cons a l => simp
  have hlen : pos + 1 ≤ (cleanStr sent.text).length := by omega
  have hl0 : 0 < (cleanStr sent.text).length := by omega
  unfold pyFind
  rw [hf]
  simp only [placeTimestamp]
  rw [if_pos hl0]
  have h1 : min ((pos : ℕ) : ℤ) (((cleanStr sent.text).length : ℤ) - 1) = ((pos : ℕ) : ℤ) := by
    apply min_eq_left
    omega
  rw [h1]
  have h2 : max (0 : ℤ) ((pos : ℕ) : ℤ) = ((pos : ℕ) : ℤ) :=
    max_eq_right (Int.ofNat_nonneg pos)
  rw [h2]
  have hql : (0 : ℚ) < (((cleanStr sent.text).length : ℕ) : ℚ) := by
    exact_mod_cast hl0
  have h3 : min ((((pos : ℕ) : ℤ) : ℚ) / (((cleanStr sent.text).length : ℕ) : ℚ)) 1
      = (((pos : ℕ) : ℤ) : ℚ) / (((cleanStr sent.text).length : ℕ) : ℚ) := by
    apply min_eq_left
    rw [div_le_one hql]
    push_cast
    exact_mod_cast Nat.le_of_succ_le hlen
  rw [h3]
  have h4 : max (0 : ℚ) ((((pos : ℕ) : ℤ) : ℚ) / (((cleanStr sent.text).length : ℕ) : ℚ))
      = (((pos : ℕ) : ℤ) : ℚ) / (((cleanStr sent.text).length : ℕ) : ℚ) := by
    apply max_eq_right
    positivity
  rw [h4]
  push_cast
  ring_nf

/-- Counterexample to **C5** as stated: Scenario A with the concrete sentence
`"My Edgar is so broken"` (keyword `Edgar`, word position 2 of 5, sentence
spanning `[0, 10]`): the engine places the element at `10/7 ≈ 1.43s`, which
differs from the claimed `≈ 4.0s` by more than 2.5 seconds. -/
theorem c5_counterexample :
    ((findElementSentence [] [c5sent] "Edgar").map
      (fun r => placeTimestamp r.1 r.2)) = some (10/7) ∧
    ¬ (|(10/7 : ℚ) - 4| ≤ 2) := by
  constructor
  · with_unfolding_all rfl
  · with_unfolding_all decide

/-- Witness for `c5_keyword_timestamp_formula` at Scenario A's input. -/
theorem c5_witness :
    charsFindAux (cleanStr c5sent.text) "edgar".data 0 = some 3 ∧
    placeTimestamp c5sent (pyFind (cleanStr c5sent.text) "edgar".data) = 10/7 := by
  refine ⟨by decide, ?_⟩
  have h := c5_keyword_timestamp_formula c5sent "edgar".data 3 (by decide) (by decide)
  rw [h]
  with_unfolding_all decide

/-! ### Claim C6 -/

/-- Kept staggered elements emitted by `staggerWalk` are pairwise at least
0.7s apart, and each lies at or above `prev + 0.7`: a pushed element lands
at exactly `prev + 0.7`, an unpushed one was already at or past it, and the
start clamp can only raise a value that is still below the scene start. -/
theorem staggerWalk_pairwise (ss se : ℚ) :
    ∀ (l : List Element) (prev : ℚ),
      (((staggerWalk ss se prev l).filter
          (fun e => staggerKinds.contains e.kind && decide (e.timestamp > -1))).map
          (fun e => e.timestamp)).Pairwise (fun a b => a + 7/10 ≤ b) ∧
      ∀ t ∈ ((staggerWalk ss se prev l).filter
          (fun e => staggerKinds.contains e.kind && decide (e.timestamp > -1))).map
          (fun e => e.timestamp), prev + 7/10 ≤ t := by
  intro l
  induction l with
  | nil => intro prev; simp [staggerWalk]
  | cons e rest ih =>
    intro prev
    simp only [staggerWalk]
    by_cases hk : staggerKinds.contains e.kind
    · rw [if_pos hk]
      set t1 := if e.timestamp < prev + 7/10 then prev + 7/10 else e.timestamp with ht1
      have ht1ge : prev + 7/10 ≤ t1 := by
        rw [ht1]
        split
        · exact le_refl _
        · rename_i h
          have := not_lt.mp h
          linarith
      by_cases hd : t1 ≥ se - 1/5
      · rw [if_pos hd]
        rw [List.filter_cons, if_neg (by
          simp only [Bool.and_eq_true, decide_eq_true_eq, not_and]
          intro _
          norm_num)]
        exact ih prev
      · rw [if_neg hd]
        set t2 := if t1 < ss then ss + 3/20 else t1 with ht2
        have ht2ge : prev + 7/10 ≤ t2 := by
          rw [ht2]
          split
          · rename_i h
            linarith
          · exact ht1ge
        have h := ih t2
        by_cases hkeep : ((t2 : ℚ) > -1)
        · rw [List.filter_cons, if_pos (by
            simp only [Bool.and_eq_true, decide_eq_true_eq]
            exact ⟨hk, hkeep⟩)]
          rw [List.map_cons]
          constructor
          · rw [List.pairwise_cons]
            exact ⟨fun t ht => h.2 t ht, h.1⟩
          · intro t ht
            rcases List.mem_cons.mp ht with h0 | h1
            · rw [h0]; exact ht2ge
            · have := h.2 t h1
              linarith
        · rw [List.filter_cons, if_neg (by
            simp only [Bool.and_eq_true, decide_eq_true_eq, not_and]
            intro _
            exact hkeep)]
          refine ⟨h.1, fun t ht => ?_⟩
          have := h.2 t ht
          linarith
    · rw [if_neg hk]
      rw [List.filter_cons, if_neg (by
        simp only [Bool.and_eq_true, decide_eq_true_eq, not_and]
        intro hkk
        exact absurd hkk hk)]
      exact ih prev

/-- **C6** (confirmed): in the stagger pass, an element closer than 0.7s to
the previous kept element is pushed to exactly `prevTime + 0.7`, and if the
pushed time reaches the scene end minus the 0.2s margin the element is
dropped; consequently (i) in every staggered scene any two consecutive kept
staggered elements are at least 0.7s apart, (ii) Scenario B holds: two
keywords at 4.0s and 4.05s in one scene with gap 0.7 end at 4.0s and 4.7s,
and (iii) an element whose push crosses the end boundary is dropped (lines
2946-2990). -/
theorem c6_stagger_pass :
    (∀ s : Scene,
      ((staggerScene s).elements.filter
        (fun e => staggerKinds.contains e.kind)).Pairwise
        (fun a b => a.timestamp + 7/10 ≤ b.timestamp)) ∧
    (staggerScene c6sceneB).elements.map (fun e => e.timestamp) = [4, 47/10] ∧
    (staggerScene c6sceneDrop).elements.map (fun e => e.timestamp) = [9/2] := by
  refine ⟨fun s => ?_, by with_unfolding_all rfl, by with_unfolding_all rfl⟩
  unfold staggerScene
  by_cases h : s.elements.length < 1
  · rw [if_pos h]
    have : s.elements = [] := List.length_eq_zero.mp (by omega)
    rw [this]
    simp
  · rw [if_neg h]
    simp only
    rw [List.filter_filter]
    have hw := (staggerWalk_pairwise s.startTime s.endTime (sortByTs s.elements)
      (s.startTime - 1)).1
    exact List.pairwise_map.mp hw

/-! ### Claim C3 -/

/-- The first unused candidate in `range n` with `0` already used is `1`,
for any `n ≥ 2`. -/
theorem firstUnused_zero_used (n : ℕ) (hn : 2 ≤ n) : firstUnused n [(0 : ℤ)] = some 1 := by
  obtain ⟨m, rfl⟩ : ∃ m, n = m + 2 := ⟨n - 2, by omega⟩
  unfold firstUnused
  rw [List.range_succ_eq_map, List.range_succ_eq_map,
    List.find?_cons_of_neg (p := fun c => !(List.contains [(0 : ℤ)] ((c : ℕ) : ℤ))) _
      (by decide),
    List.map_cons,
    List.find?_cons_of_pos (p := fun c => !(List.contains [(0 : ℤ)] ((c : ℕ) : ℤ))) _
      (by decide)]
  rfl

/-- **C3** (amended): when two scenes reference the same reddit post index
and an unused valid index remains, FIX 0.6 keeps the first occurrence's
index and reassigns the later scene to the first unused index (rebuilding
its element near the scene start); only when every index is already used
(here `num_reddit = 1`) is the later scene demoted to `gameplay_icons` with
its elements cleared (lines 1135-1169). -/
theorem c3_amended (n : ℕ) (hn : 2 ≤ n) :
    fix06 n 0 0 [c3scene1, c3scene2] =
      [{ c3scene1 with elements := [c3elem 0 (3/10)] },
       { c3scene2 with elements := [c3elem 1 (63/10)] }] ∧
    fix06 1 0 0 [c3scene1, c3scene2] =
      [{ c3scene1 with elements := [c3elem 0 (3/10)] }, toGameplayEmpty c3scene2] := by
  constructor
  · have hn0 : ¬ (n = 0) := by omega
    have h1 : fix06Scene n 0 0 {} c3scene1 =
        ({ usedReddit := [(0 : ℤ)] }, { c3scene1 with elements := [c3elem 0 (3/10)] }) := by
      unfold fix06Scene
      rw [if_pos (by with_unfolding_all decide), if_neg hn0]
      have hfind : c3scene1.elements.find? (fun e => e.kind = "reddit") =
          some { kind := "reddit", timestamp := 0, postIndex := some 0 } := by
        with_unfolding_all decide
      rw [hfind]
      dsimp only
      unfold pickIdx
      dsimp only
      have hc : (0 : ℤ) ≤ 0 ∧ (0 : ℤ) < (n : ℤ) ∧
          (List.contains ([] : List ℤ) 0) = false := by
        refine ⟨le_refl 0, by omega, by decide⟩
      rw [if_pos hc]
      with_unfolding_all decide
    have h2 : fix06Scene n 0 0 { usedReddit := [(0 : ℤ)] } c3scene2 =
        ({ usedReddit := [(1 : ℤ), 0] }, { c3scene2 with elements := [c3elem 1 (63/10)] }) := by
      unfold fix06Scene
      rw [if_pos (by with_unfolding_all decide), if_neg hn0]
      have hfind : c3scene2.elements.find? (fun e => e.kind = "reddit") =
          some { kind := "reddit", timestamp := 6, postIndex := some 0 } := by
        with_unfolding_all decide
      rw [hfind]
      dsimp only
      unfold pickIdx
      dsimp only
      have hnc : ¬ ((0 : ℤ) ≤ 0 ∧ (0 : ℤ) < (n : ℤ) ∧
          (List.contains [(0 : ℤ)] 0) = false) := by
        intro h
        exact absurd h.2.2 (by decide)
      rw [if_neg hnc, firstUnused_zero_used n hn]
      with_unfolding_all decide
    unfold fix06 fix06Aux
    rw [h1]
    dsimp only
    unfold fix06Aux
    rw [h2]
    dsimp only
    unfold fix06Aux
    rfl
  · with_unfolding_all rfl

/-- Counterexample to **C3** as stated: with two reddit assets available and
both scenes claiming index 0, the second scene stays `reddit_evidence` and
receives index 1; it is not demoted to the ambient kind with cleared
elements as the claim asserts. -/
theorem c3_counterexample :
    (fix06 2 0 0 [c3scene1, c3scene2]).map
      (fun s => (s.kind, s.elements.map (fun e => e.postIndex))) =
      [("reddit_evidence", [some 0]), ("reddit_evidence", [some 1])] ∧
    ¬ ((fix06 2 0 0 [c3scene1, c3scene2]).map (fun s => s.kind) =
      ["reddit_evidence", "gameplay_icons"]) := by
  constructor
  · with_unfolding_all rfl
  · with_unfolding_all decide

/-- Witness for `c3_amended` at `n = 2`. -/
theorem c3_witness :
    2 ≤ 2 ∧ fix06 2 0 0 [c3scene1, c3scene2] =
      [{ c3scene1 with elements := [c3elem 0 (3/10)] },
       { c3scene2 with elements := [c3elem 1 (63/10)] }] :=
  ⟨by decide, (c3_amended 2 (by decide)).1⟩

/-! ### Claim C4 -/

/-- Duration of a constructed reddit evidence scene: at least one second
(shorter candidates are dropped) and at most eight (lines 2499-2516). -/
theorem mkRedditScene_bounds (tce actual : ℚ) (idx : ℕ) (s e : ℚ) (desc : String)
    (sc : Scene) (h : mkRedditScene tce actual idx s e desc = some sc) :
    1 ≤ sceneDur sc ∧ sceneDur sc ≤ 8 := by
  unfold mkRedditScene at h
  dsimp only at h
  generalize hX : (if e = 0 then (6:ℚ) else e - max (tce + 1/10) s) = X at h
  split at h
  · exact absurd h (by simp)
  · rename_i hge
    rw [Option.some.injEq] at h
    subst h
    unfold sceneDur
    dsimp only
    constructor
    · linarith [not_lt.mp hge]
    · have hm : min (max (tce + 1/10) s + max 5 (min 8 X)) actual ≤
          max (tce + 1/10) s + max 5 (min 8 X) := min_le_left _ _
      have hT : max (5:ℚ) (min 8 X) ≤ 8 := max_le (by norm_num) (min_le_left _ _)
      linarith

/-- Duration of a constructed youtube evidence scene: in `[1, 6]`
(lines 2605-2624). -/
theorem mkYoutubeScene_bounds (tce actual : ℚ) (idx : ℕ) (s e : ℚ) (t : String)
    (sc : Scene) (h : mkYoutubeScene tce actual idx s e t = some sc) :
    1 ≤ sceneDur sc ∧ sceneDur sc ≤ 6 := by
  unfold mkYoutubeScene at h
  dsimp only at h
  split at h
  · exact absurd h (by simp)
  · rename_i hge
    rw [Option.some.injEq] at h
    subst h
    unfold sceneDur
    dsimp only
    constructor
    · linarith [not_lt.mp hge]
    · have hm : min (max (tce + 1/10) s + max 4 (min 6 (e - max (tce + 1/10) s))) actual ≤
          max (tce + 1/10) s + max 4 (min 6 (e - max (tce + 1/10) s)) := min_le_left _ _
      have hT : max (4:ℚ) (min 6 (e - max (tce + 1/10) s)) ≤ 6 :=
        max_le (by norm_num) (min_le_left _ _)
      linarith

theorem mkGraphScene_bounds (tce actual : ℚ) (idx : ℕ) (s e : ℚ) (t : String)
    (sc : Scene) (h : mkGraphScene tce actual idx s e t = some sc) :
    1 ≤ sceneDur sc ∧ sceneDur sc ≤ 6 := by
  unfold mkGraphScene at h
  dsimp only at h
  split at h
  · exact absurd h (by simp)
  · rename_i hge
    rw [Option.some.injEq] at h
    subst h
    unfold sceneDur
    dsimp only
    constructor
    · linarith [not_lt.mp hge]
    · have hm : min (max (tce + 1/10) s + max 4 (min 6 (e - max (tce + 1/10) s))) actual ≤
          max (tce + 1/10) s + max 4 (min 6 (e - max (tce + 1/10) s)) := min_le_left _ _
      have hT : max (4:ℚ) (min 6 (e - max (tce + 1/10) s)) ≤ 6 :=
        max_le (by norm_num) (min_le_left _ _)
      linarith

/-- Intro pacing never lengthens an evidence scene beyond a bound satisfied
by its input (lines 2690-2710). -/
theorem introPaceAux_dur_le (windowEnd actual B : ℚ) :
    ∀ (scenes : List Scene) (lastEnd introTotal : ℚ),
      (∀ sc ∈ scenes, sceneDur sc ≤ B) →
      ∀ sc ∈ introPaceAux windowEnd actual lastEnd introTotal scenes, sceneDur sc ≤ B := by
  intro scenes
  induction scenes with
  | nil => intro _ _ _ sc h; simp [introPaceAux] at h
  | cons s rest ih =>
    intro lastEnd introTotal hin sc hsc
    have hs : sceneDur s ≤ B := hin s (List.mem_cons_self s rest)
    have hrest : ∀ x ∈ rest, sceneDur x ≤ B := fun x hx => hin x (List.mem_cons_of_mem s hx)
    rw [introPaceAux] at hsc
    by_cases hw : s.startTime ≤ windowEnd
    · rw [if_pos hw] at hsc
      dsimp only at hsc
      by_cases hcap : sceneDur s > 4
      · simp only [if_pos hcap] at hsc
        have hB4 : (4:ℚ) ≤ B := by linarith
        by_cases hpush : ({ s with endTime := s.startTime + 4 } : Scene).startTime - lastEnd < 1
        · simp only [if_pos hpush] at hsc
          by_cases hbud : introTotal + 4 > 6
          · simp only [if_pos hbud] at hsc
            rcases List.mem_cons.mp hsc with h0 | h1
            · subst h0
              unfold paceElems sceneDur
              dsimp only
              have := min_le_left (max (lastEnd + 1)
                (windowEnd + 1/10) + 4) actual
              have := le_max_left (lastEnd + 1) (windowEnd + 1/10)
              have := le_max_right (lastEnd + 1) (windowEnd + 1/10)
              linarith [min_le_left (max (lastEnd + 1) (windowEnd + 1/10) + 4) actual]
            · exact ih lastEnd introTotal hrest sc h1
          · simp only [if_neg hbud] at hsc
            rcases List.mem_cons.mp hsc with h0 | h1
            · subst h0
              unfold paceElems sceneDur
              dsimp only
              linarith [min_le_left (lastEnd + 1 + 4) actual]
            · exact ih _ _ hrest sc h1
        · simp only [if_neg hpush] at hsc
          by_cases hbud : introTotal + 4 > 6
          · simp only [if_pos hbud] at hsc
            rcases List.mem_cons.mp hsc with h0 | h1
            · subst h0
              unfold paceElems sceneDur
              dsimp only
              have h1 := le_max_left s.startTime (windowEnd + 1/10)
              linarith [min_le_left (max s.startTime (windowEnd + 1/10) + 4) actual]
            · exact ih lastEnd introTotal hrest sc h1
          · simp only [if_neg hbud] at hsc
            rcases List.mem_cons.mp hsc with h0 | h1
            · subst h0
              unfold paceElems sceneDur
              dsimp only
              linarith
            · exact ih _ _ hrest sc h1
      · simp only [if_neg hcap] at hsc
        have hd0 : sceneDur s ≤ 4 := not_lt.mp hcap
        by_cases hpush : s.startTime - lastEnd < 1
        · simp only [if_pos hpush] at hsc
          by_cases hbud : introTotal + sceneDur s > 6
          · simp only [if_pos hbud] at hsc
            rcases List.mem_cons.mp hsc with h0 | h1
            · subst h0
              unfold paceElems sceneDur
              dsimp only
              have hd := min_le_left (max (lastEnd + 1) (windowEnd + 1/10) + sceneDur s) actual
              unfold sceneDur at hd hs
              linarith
            · exact ih lastEnd introTotal hrest sc h1
          · simp only [if_neg hbud] at hsc
            rcases List.mem_cons.mp hsc with h0 | h1
            · subst h0
              unfold paceElems sceneDur
              dsimp only
              have hd := min_le_left (lastEnd + 1 + sceneDur s) actual
              unfold sceneDur at hd hs
              linarith
            · exact ih _ _ hrest sc h1
        · simp only [if_neg hpush] at hsc
          by_cases hbud : introTotal + sceneDur s > 6
          · simp only [if_pos hbud] at hsc
            rcases List.mem_cons.mp hsc with h0 | h1
            · subst h0
              unfold paceElems sceneDur
              dsimp only
              have hd := min_le_left (max s.startTime (windowEnd + 1/10) + sceneDur s) actual
              unfold sceneDur at hd hs
              linarith
            · exact ih lastEnd introTotal hrest sc h1
          · simp only [if_neg hbud] at hsc
            rcases List.mem_cons.mp hsc with h0 | h1
            · subst h0
              exact hs
            · exact ih _ _ hrest sc h1
    · rw [if_neg hw] at hsc
      rcases List.mem_cons.mp hsc with h0 | h1
      · subst h0; exact hs
      · exact ih lastEnd introTotal hrest sc h1

/-- **C4** (amended): every constructed evidence scene's duration is at most
its kind's configured maximum (reddit 8s, youtube 6s, graph 6s) and at least
1s, and the intro pacing pass preserves any such upper bound; the lower
bounds 5s/4s/4s of the claim are only targets, violated when the scene is
truncated at the voiceover end (see the counterexample). -/
theorem c4_amended :
    (∀ (tce actual : ℚ) (idx : ℕ) (s e : ℚ) (d : String) (sc : Scene),
      mkRedditScene tce actual idx s e d = some sc → 1 ≤ sceneDur sc ∧ sceneDur sc ≤ 8) ∧
    (∀ (tce actual : ℚ) (idx : ℕ) (s e : ℚ) (d : String) (sc : Scene),
      mkYoutubeScene tce actual idx s e d = some sc → 1 ≤ sceneDur sc ∧ sceneDur sc ≤ 6) ∧
    (∀ (tce actual : ℚ) (idx : ℕ) (s e : ℚ) (d : String) (sc : Scene),
      mkGraphScene tce actual idx s e d = some sc → 1 ≤ sceneDur sc ∧ sceneDur sc ≤ 6) ∧
    (∀ (windowEnd actual B : ℚ) (scenes : List Scene) (lastEnd introTotal : ℚ),
      (∀ sc ∈ scenes, sceneDur sc ≤ B) →
      ∀ sc ∈ introPaceAux windowEnd actual lastEnd introTotal scenes, sceneDur sc ≤ B) :=
  ⟨mkRedditScene_bounds, mkYoutubeScene_bounds, mkGraphScene_bounds,
   fun w a B sc l i h => introPaceAux_dur_le w a B sc l i h⟩

/-- Counterexample to **C4** as stated: a reddit asset matched at `[8, 9]`
in a 10-second voiceover yields a `reddit_evidence` scene of duration 2s,
below the claimed minimum of 5s, and the gap-filling pass hands exactly this
scene to the final timeline. -/
theorem c4_counterexample :
    mkRedditScene 0 10 0 8 9 "d" = some c4scene ∧
    sceneDur c4scene = 2 ∧ ¬ ((5:ℚ) ≤ sceneDur c4scene) ∧
    fillGaps 10 [c4scene] = [gapScene 0 8, c4scene] := by
  refine ⟨by with_unfolding_all rfl, by with_unfolding_all rfl,
    by with_unfolding_all decide, by with_unfolding_all rfl⟩

/-- Witness for `c4_amended` (first conjunct) at a concrete input. -/
theorem c4_witness :
    mkRedditScene 0 100 0 20 26 "d" = some c4wScene ∧
    1 ≤ sceneDur c4wScene ∧ sceneDur c4wScene ≤ 8 := by
  have he : mkRedditScene 0 100 0 20 26 "d" = some c4wScene := by with_unfolding_all rfl
  exact ⟨he, c4_amended.1 0 100 0 20 26 "d" c4wScene he⟩

/-! ### Claim C1 -/

/-- One gap-filling step preserves the accumulator invariant when the new
scene starts at or after the accumulated frontier. -/
theorem fillGapsStep_inv (rest : List Scene) (s p : Scene)
    (hinv : accInv (p :: rest))
    (hfront : p.endTime ≤ s.startTime)
    (hpos : 0 < sceneDur s) :
    accInv (fillGapsStep (p :: rest) s) ∧ (fillGapsStep (p :: rest) s).head? = some s := by
  obtain ⟨hne, hchain, hdur, hlastP⟩ := hinv
  unfold fillGapsStep
  dsimp only
  by_cases hgap : s.startTime - p.endTime > 1/10
  · rw [if_pos hgap]
    by_cases hgp : p.kind = "gameplay_icons"
    · rw [if_pos hgp]
      refine ⟨⟨by simp, ?_, ?_, ?_⟩, by simp⟩
      · rw [List.chain'_cons]
        constructor
        · exact ⟨le_refl _, by norm_num⟩
        · cases rest with
          | nil => simp
          | cons q qs =>
            rw [List.chain'_cons]
            rw [List.chain'_cons] at hchain
            refine ⟨?_, hchain.2⟩
            have hq := hchain.1
            unfold gapOK at hq ⊢
            dsimp only
            exact hq
      · intro t ht
        rcases List.mem_cons.mp ht with h0 | h1
        · rw [h0]; exact hpos
        · rcases List.mem_cons.mp h1 with h2 | h3
          · rw [h2]
            unfold sceneDur
            dsimp only
            have := hdur p (List.mem_cons_self _ _)
            unfold sceneDur at this
            linarith
          · exact hdur t (List.mem_cons_of_mem _ h3)
      · intro t ht
        cases rest with
        | nil =>
          simp only [List.getLast?_cons_cons, List.getLast?_singleton] at ht
          rw [Option.some.injEq] at ht
          subst ht
          have := hlastP p (by simp)
          exact this
        | cons q qs =>
          have : (s :: { p with endTime := s.startTime } :: q :: qs).getLast? =
              (p :: q :: qs).getLast? := by
            simp [List.getLast?_cons_cons]
          rw [this] at ht
          exact hlastP t ht
    · rw [if_neg hgp]
      refine ⟨⟨by simp, ?_, ?_, ?_⟩, by simp⟩
      · rw [List.chain'_cons, List.chain'_cons]
        refine ⟨?_, ?_, hchain⟩
        · unfold gapOK gapScene
          dsimp only
          exact ⟨le_refl _, by linarith⟩
        · unfold gapOK gapScene
          dsimp only
          exact ⟨le_refl _, by linarith⟩
      · intro t ht
        rcases List.mem_cons.mp ht with h0 | h1
        · rw [h0]; exact hpos
        · rcases List.mem_cons.mp h1 with h2 | h3
          · rw [h2]
            unfold sceneDur gapScene
            dsimp only
            linarith
          · exact hdur t h3
      · intro t ht
        cases rest with
        | nil =>
          simp only [List.getLast?_cons_cons, List.getLast?_singleton] at ht
          rw [Option.some.injEq] at ht
          subst ht
          exact hlastP p (by simp)
        | cons q qs =>
          have : (s :: gapScene p.endTime s.startTime :: p :: q :: qs).getLast? =
              (p :: q :: qs).getLast? := by
            simp [List.getLast?_cons_cons]
          rw [this] at ht
          exact hlastP t ht
  · rw [if_neg hgap]
    refine ⟨⟨by simp, ?_, ?_, ?_⟩, by simp⟩
    · rw [List.chain'_cons]
      exact ⟨⟨hfront, not_lt.mp hgap⟩, hchain⟩
    · intro t ht
      rcases List.mem_cons.mp ht with h0 | h1
      · rw [h0]; exact hpos
      · exact hdur t h1
    · intro t ht
      cases rest with
      | nil =>
        simp only [List.getLast?_cons_cons, List.getLast?_singleton] at ht
        rw [Option.some.injEq] at ht
        subst ht
        exact hlastP p (by simp)
      | cons q qs =>
        have : (s :: p :: q :: qs).getLast? = (p :: q :: qs).getLast? := by
          simp [List.getLast?_cons_cons]
        rw [this] at ht
        exact hlastP t ht

/-- The gap-filling fold preserves the invariant over a sorted,
non-overlapping input. -/
theorem fillGapsFold_inv (l : List Scene) :
    ∀ (rest : List Scene) (p : Scene),
      accInv (p :: rest) →
      (p :: l).Chain' (fun a b => a.endTime ≤ b.startTime) →
      (∀ t ∈ l, 0 < sceneDur t) →
      accInv (l.foldl fillGapsStep (p :: rest)) ∧
      (l.foldl fillGapsStep (p :: rest)).head? = (p :: l).getLast? := by
  induction l with
  | nil =>
    intro rest p hinv _ _
    exact ⟨hinv, by simp⟩
  | cons s l' ih =>
    intro rest p hinv hchain hpos
    have hfront : p.endTime ≤ s.startTime := by
      rw [List.chain'_cons] at hchain
      exact hchain.1
    have hstep := fillGapsStep_inv rest s p hinv hfront
      (hpos s (List.mem_cons_self _ _))
    rw [List.foldl_cons]
    obtain ⟨acc', hacc⟩ : ∃ acc', fillGapsStep (p :: rest) s = s :: acc' := by
      cases h : fillGapsStep (p :: rest) s with
      | nil => rw [h] at hstep; simp at hstep
      | cons a as =>
        rw [h] at hstep
        rw [List.head?_cons, Option.some.injEq] at hstep
        exact ⟨as, by rw [hstep.2]⟩
    rw [hacc]
    rw [hacc] at hstep
    have hres := ih acc' s hstep.1 (by
      rw [List.chain'_cons] at hchain
      exact hchain.2) (fun t ht => hpos t (List.mem_cons_of_mem _ ht))
    refine ⟨hres.1, ?_⟩
    rw [hres.2]
    simp [List.getLast?_cons_cons]

/-- The first gap-filling step establishes the invariant. -/
theorem fillGapsFirst_inv (s : Scene) (hpos : 0 < sceneDur s) (hge0 : 0 ≤ s.startTime) :
    accInv (fillGapsStep [] s) ∧ (fillGapsStep [] s).head? = some s := by
  unfold fillGapsStep
  dsimp only
  by_cases h : s.startTime > 1/10
  · rw [if_pos h]
    refine ⟨⟨by simp, ?_, ?_, ?_⟩, by simp⟩
    · rw [List.chain'_cons]
      refine ⟨?_, by simp⟩
      unfold gapOK gapScene
      dsimp only
      exact ⟨le_refl _, by linarith⟩
    · intro t ht
      rcases List.mem_cons.mp ht with h0 | h1
      · rw [h0]; exact hpos
      · rcases List.mem_cons.mp h1 with h2 | h3
        · rw [h2]
          unfold sceneDur gapScene
          dsimp only
          linarith
        · simp at h3
    · intro t ht
      simp only [List.getLast?_cons_cons, List.getLast?_singleton, Option.some.injEq] at ht
      subst ht
      unfold gapScene
      exact ⟨le_refl _, by norm_num⟩
  · rw [if_neg h]
    refine ⟨⟨by simp, by simp, ?_, ?_⟩, by simp⟩
    · intro t ht
      rcases List.mem_cons.mp ht with h0 | h1
      · rw [h0]; exact hpos
      · simp at h1
    · intro t ht
      simp only [List.getLast?_singleton, Option.some.injEq] at ht
      subst ht
      exact ⟨hge0, not_lt.mp h⟩

/-- The trailing gap fix preserves the invariant and bounds the final
scene's end. -/
theorem fillGapsEnd_inv (actual : ℚ) (rest : List Scene) (q : Scene)
    (hinv : accInv (q :: rest)) (hqe : q.endTime ≤ actual) :
    accInv (fillGapsEnd actual (q :: rest)) ∧
    ∀ r, (fillGapsEnd actual (q :: rest)).head? = some r →
      actual - 1/10 ≤ r.endTime ∧ r.endTime ≤ actual := by
  obtain ⟨hne, hchain, hdur, hlastP⟩ := hinv
  unfold fillGapsEnd
  dsimp only
  by_cases h : q.endTime < actual - 1/10
  · rw [if_pos h]
    by_cases hgp : q.kind = "gameplay_icons"
    · rw [if_pos hgp]
      refine ⟨⟨by simp, ?_, ?_, ?_⟩, ?_⟩
      · cases rest with
        | nil => simp
        | cons a as =>
          rw [List.chain'_cons]
          rw [List.chain'_cons] at hchain
          exact ⟨hchain.1, hchain.2⟩
      · intro t ht
        rcases List.mem_cons.mp ht with h0 | h1
        · rw [h0]
          unfold sceneDur
          dsimp only
          have := hdur q (List.mem_cons_self _ _)
          unfold sceneDur at this
          linarith
        · exact hdur t (List.mem_cons_of_mem _ h1)
      · intro t ht
        cases rest with
        | nil =>
          simp only [List.getLast?_singleton, Option.some.injEq] at ht
          subst ht
          have := hlastP q (by simp)
          exact this
        | cons a as =>
          have : ({ q with endTime := actual } :: a :: as).getLast? =
              (q :: a :: as).getLast? := by
            simp [List.getLast?_cons_cons]
          rw [this] at ht
          exact hlastP t ht
      · intro r hr
        rw [List.head?_cons, Option.some.injEq] at hr
        subst hr
        dsimp only
        constructor
        · linarith
        · exact le_refl _
    · rw [if_neg hgp]
      refine ⟨⟨by simp, ?_, ?_, ?_⟩, ?_⟩
      · rw [List.chain'_cons]
        refine ⟨?_, hchain⟩
        unfold gapOK gapScene
        dsimp only
        exact ⟨le_refl _, by linarith⟩
      · intro t ht
        rcases List.mem_cons.mp ht with h0 | h1
        · rw [h0]
          unfold sceneDur gapScene
          dsimp only
          linarith
        · exact hdur t h1
      · intro t ht
        cases rest with
        | nil =>
          simp only [List.getLast?_cons_cons, List.getLast?_singleton,
            Option.some.injEq] at ht
          subst ht
          exact hlastP q (by simp)
        | cons a as =>
          have : (gapScene q.endTime actual :: q :: a :: as).getLast? =
              (q :: a :: as).getLast? := by
            simp [List.getLast?_cons_cons]
          rw [this] at ht
          exact hlastP t ht
      · intro r hr
        rw [List.head?_cons, Option.some.injEq] at hr
        subst hr
        unfold gapScene
        dsimp only
        exact ⟨by linarith, le_refl _⟩
  · rw [if_neg h]
    refine ⟨⟨hne, hchain, hdur, hlastP⟩, ?_⟩
    intro r hr
    rw [List.head?_cons, Option.some.injEq] at hr
    subst hr
    exact ⟨by linarith [not_lt.mp h], hqe⟩

/-- **C1** (amended): for non-overlapping, positive-duration input scenes
within `[0, actual]`, the gap-filled timeline is nonempty, ordered and
non-overlapping with inter-scene gaps of at most 0.1s (larger gaps are
covered exactly), every scene has positive duration, the first scene starts
within `[0, 0.1]`, and the last scene ends within `(actual - 0.1, actual]`.
Gaps of at most 0.1s (including a first scene starting after 0 and a last
scene stopping short of the total) are left in place, so the exact-partition
form of the claim fails (see the counterexample). -/
theorem c1_amended (actual : ℚ) (scenes : List Scene)
    (hne : scenes ≠ [])
    (hpos : ∀ s ∈ scenes, 0 < sceneDur s)
    (hge0 : ∀ s ∈ scenes, 0 ≤ s.startTime)
    (hend : ∀ s ∈ scenes, s.endTime ≤ actual)
    (hchain : (sortByStart scenes).Chain' (fun a b => a.endTime ≤ b.startTime)) :
    fillGaps actual scenes ≠ [] ∧
    (fillGaps actual scenes).Chain' gapOK ∧
    (∀ s ∈ fillGaps actual scenes, 0 < sceneDur s) ∧
    (∀ r, (fillGaps actual scenes).head? = some r →
      0 ≤ r.startTime ∧ r.startTime ≤ 1/10) ∧
    (∀ r, (fillGaps actual scenes).getLast? = some r →
      actual - 1/10 ≤ r.endTime ∧ r.endTime ≤ actual) := by
  cases scenes with
  | nil => exact absurd rfl hne
  | cons x xs =>
    unfold fillGaps
    dsimp only
    have hmem : ∀ t, t ∈ sortByStart (x :: xs) ↔ t ∈ x :: xs := by
      intro t
      unfold sortByStart
      exact List.mem_insertionSort _
    cases hsort : sortByStart (x :: xs) with
    | nil =>
      have : x ∈ sortByStart (x :: xs) := (hmem x).mpr (List.mem_cons_self _ _)
      rw [hsort] at this
      simp at this
    | cons p l' =>
      have hmem' : ∀ t, t ∈ p :: l' → t ∈ x :: xs := by
        intro t ht
        exact (hmem t).mp (hsort ▸ ht)
      have hposP : 0 < sceneDur p := hpos p (hmem' p (List.mem_cons_self _ _))
      have hge0P : 0 ≤ p.startTime := hge0 p (hmem' p (List.mem_cons_self _ _))
      have hfirst := fillGapsFirst_inv p hposP hge0P
      obtain ⟨acc1, hacc1⟩ : ∃ a, fillGapsStep [] p = p :: a := by
        cases h : fillGapsStep [] p with
        | nil => rw [h] at hfirst; simp at hfirst
        | cons a as =>
          rw [h] at hfirst
          rw [List.head?_cons, Option.some.injEq] at hfirst
          exact ⟨as, by rw [hfirst.2]⟩
      rw [List.foldl_cons, hacc1]
      rw [hacc1] at hfirst
      rw [hsort] at hchain
      have hfold := fillGapsFold_inv l' acc1 p hfirst.1 hchain
        (fun t ht => hpos t (hmem' t (List.mem_cons_of_mem _ ht)))
      obtain ⟨q, hq⟩ : ∃ q, (l'.foldl fillGapsStep (p :: acc1)).head? = some q := by
        cases hh : l'.foldl fillGapsStep (p :: acc1) with
        | nil => exact absurd hh hfold.1.1
        | cons a as => exact ⟨a, by simp⟩
      have hqmem : q ∈ p :: l' := by
        have := hfold.2
        rw [hq] at this
        have hopt : q ∈ (p :: l').getLast? := by
          rw [← this]
          rfl
        rcases List.mem_getLast?_eq_getLast hopt with ⟨hh, hq2⟩
        rw [hq2]
        exact List.getLast_mem hh
      have hqe : q.endTime ≤ actual := hend q (hmem' q hqmem)
      obtain ⟨accF, haccF⟩ : ∃ a, l'.foldl fillGapsStep (p :: acc1) = q :: a := by
        cases hh : l'.foldl fillGapsStep (p :: acc1) with
        | nil => exact absurd hh hfold.1.1
        | cons a as =>
          rw [hh] at hq
          rw [List.head?_cons, Option.some.injEq] at hq
          exact ⟨as, by rw [hq]⟩
      rw [haccF]
      rw [haccF] at hfold
      have hendinv := fillGapsEnd_inv actual accF q hfold.1 hqe
      obtain ⟨hEne, hEchain, hEdur, hElast⟩ := hendinv.1
      refine ⟨?_, ?_, ?_, ?_, ?_⟩
      · intro habs
        rw [List.reverse_eq_nil_iff] at habs
        exact hEne habs
      · rw [List.chain'_reverse]
        exact hEchain
      · intro t ht
        rw [List.mem_reverse] at ht
        exact hEdur t ht
      · intro r hr
        rw [List.head?_reverse] at hr
        exact hElast r hr
      · intro r hr
        rw [List.getLast?_reverse] at hr
        exact hendinv.2 r hr

/-- Counterexample to **C1** as stated: a title card `[0, 3]` followed by a
reddit evidence scene `[3.1, 8.1]` (exactly the 0.1s offset the evidence
rebuild produces) passes through the gap filler unchanged, so the final
timeline has `scenes[0].endTime = 3 ≠ 3.1 = scenes[1].startTime` — the
scenes do not partition `[0, totalDuration]` exactly. -/
theorem c1_counterexample :
    fillGaps 20 [c1title, c1reddit] = [c1title, c1reddit, gapScene (81/10) 20] ∧
    ¬ (c1title.endTime = c1reddit.startTime) := by
  refine ⟨by with_unfolding_all rfl, by with_unfolding_all decide⟩

/-- Witness for `c1_amended` at the counterexample input. -/
theorem c1_witness :
    fillGaps 20 [c1title, c1reddit] ≠ [] ∧
    (fillGaps 20 [c1title, c1reddit]).Chain' gapOK := by
  have hs : sortByStart [c1title, c1reddit] = [c1title, c1reddit] := by
    with_unfolding_all rfl
  have h := c1_amended 20 [c1title, c1reddit] (by decide)
    (by with_unfolding_all decide)
    (by with_unfolding_all decide)
    (by with_unfolding_all decide)
    (by
      rw [hs, List.chain'_cons]
      exact ⟨by with_unfolding_all decide, by simp⟩)
  exact ⟨h.1, h.2.1⟩

theorem betterCand_irrefl (c : MatchCand) : ¬ betterCand c c := by
  unfold betterCand
  rintro (h | ⟨-, h⟩ | ⟨-, -, h⟩) <;> exact lt_irrefl _ h

theorem betterCand_trans {a b c : MatchCand}
    (h1 : betterCand a b) (h2 : betterCand b c) : betterCand a c := by
  unfold betterCand at h1 h2 ⊢
  rcases h1 with h1 | ⟨h1a, h1b⟩ | ⟨h1a, h1b, h1c⟩ <;>
    rcases h2 with h2 | ⟨h2a, h2b⟩ | ⟨h2a, h2b, h2c⟩
  · exact Or.inl (by omega)
  · exact Or.inl (by omega)
  · exact Or.inl (by omega)
  · exact Or.inl (by omega)
  · exact Or.inr (Or.inl ⟨by omega, by linarith⟩)
  · exact Or.inr (Or.inl ⟨by omega, by linarith⟩)
  · exact Or.inl (by omega)
  · exact Or.inr (Or.inl ⟨by omega, by linarith⟩)
  · exact Or.inr (Or.inr ⟨by omega, by linarith, by linarith⟩)

theorem notBetter_trans {a b c : MatchCand}
    (h1 : ¬ betterCand a b) (h2 : ¬ betterCand b c) : ¬ betterCand a c := by
  unfold betterCand at h1 h2 ⊢
  push_neg at h1 h2
  obtain ⟨h1a, h1b, h1c⟩ := h1
  obtain ⟨h2a, h2b, h2c⟩ := h2
  rintro (h | ⟨ha, hb⟩ | ⟨ha, hb, hc⟩)
  · omega
  · have e1 : a.score = b.score := by omega
    have e2 : b.score = c.score := by omega
    have f1 := h1b e1
    have f2 := h2b e2
    linarith
  · have e1 : a.score = b.score := by omega
    have e2 : b.score = c.score := by omega
    have f1 := h1b e1
    have f2 := h2b e2
    have g1 : a.frac = b.frac := by linarith
    have g2 : b.frac = c.frac := by linarith
    have s1 := h1c e1 g1
    have s2 := h2c e2 g2
    linarith

theorem pickBestCand_acc_spec :
    ∀ (cands : List MatchCand) (a r : MatchCand),
      pickBestCand cands (some a) = some r →
      (r = a ∨ r ∈ cands) ∧ ¬ betterCand a r ∧ ∀ x ∈ cands, ¬ betterCand x r := by
  intro cands
  induction cands with
  | nil =>
    intro a r h
    unfold pickBestCand at h
    simp only [List.foldl_nil, Option.some.injEq] at h
    subst h
    exact ⟨Or.inl rfl, betterCand_irrefl _, by simp⟩
  | cons c cs ih =>
    intro a r h
    unfold pickBestCand at h ih
    simp only [List.foldl_cons] at h
    by_cases hb : betterCand c a
    · rw [if_pos hb] at h
      obtain ⟨hmem, hc, hall⟩ := ih c r h
      refine ⟨?_, ?_, ?_⟩
      · rcases hmem with rfl | hm
        · exact Or.inr (List.mem_cons_self _ _)
        · exact Or.inr (List.mem_cons_of_mem _ hm)
      · intro har
        exact hc (betterCand_trans hb har)
      · intro x hx
        rcases List.mem_cons.mp hx with rfl | hx'
        · exact hc
        · exact hall x hx'
    · rw [if_neg hb] at h
      obtain ⟨hmem, ha, hall⟩ := ih a r h
      refine ⟨?_, ha, ?_⟩
      · rcases hmem with rfl | hm
        · exact Or.inl rfl
        · exact Or.inr (List.mem_cons_of_mem _ hm)
      · intro x hx
        rcases List.mem_cons.mp hx with rfl | hx'
        · exact notBetter_trans hb ha
        · exact hall x hx'

theorem pickBestCand_spec (cands : List MatchCand) (r : MatchCand)
    (h : pickBestCand cands none = some r) :
    r ∈ cands ∧ ∀ x ∈ cands, ¬ betterCand x r := by
  cases cands with
  | nil => exact absurd h (by unfold pickBestCand; simp)
  | cons c cs =>
    have h' : pickBestCand cs (some c) = some r := by
      unfold pickBestCand at h ⊢
      simpa using h
    obtain ⟨hmem, hc, hall⟩ := pickBestCand_acc_spec cs c r h'
    refine ⟨?_, ?_⟩
    · rcases hmem with rfl | hm
      · exact List.mem_cons_self _ _
      · exact List.mem_cons_of_mem _ hm
    · intro x hx
      rcases List.mem_cons.mp hx with rfl | hx'
      · exact hc
      · exact hall x hx'


theorem fallbackCand_direct (kwClean : List Char) (kwWords : List (List Char))
    (sent : SentenceTiming) (hk : kwClean ≠ [])
    (hd : pyContains (cleanStr sent.text) kwClean = true) :
    fallbackCand kwClean kwWords sent =
      some { sent := sent, score := 3, frac := 1,
             pos := pyFind (cleanStr sent.text) kwClean } := by
  unfold fallbackCand
  rw [if_pos ⟨hk, hd⟩]

theorem fallbackCand_shape (kwClean : List Char) (kwWords : List (List Char))
    (sent : SentenceTiming) (c : MatchCand)
    (h : fallbackCand kwClean kwWords sent = some c) :
    c.sent = sent ∧ c.score ≤ 3 ∧ c.frac ≤ 1 ∧
    (c.score = 3 → pyContains (cleanStr sent.text) kwClean = true ∧ c.frac = 1) := by
  unfold fallbackCand at h
  dsimp only at h
  split at h
  case isTrue hcond =>
    injection h with h
    subst h
    exact ⟨rfl, show (3:ℕ) ≤ 3 by omega, le_refl _, fun _ => ⟨hcond.2, rfl⟩⟩
  case isFalse hcond =>
    split at h
    case isTrue hkw =>
      split at h
      case h_1 i hi =>
        injection h with h
        subst h
        exact ⟨rfl, show (2:ℕ) ≤ 3 by omega, le_refl _,
          fun h3 => absurd (show (2:ℕ) = 3 from h3) (by omega)⟩
      case h_2 hnone =>
        split at h
        case isTrue hlen =>
          split at h
          case isTrue hfr =>
            injection h with h
            subst h
            refine ⟨rfl, show (1:ℕ) ≤ 3 by omega, ?_,
              fun h3 => absurd (show (1:ℕ) = 3 from h3) (by omega)⟩
            show ((List.filter _ kwWords).length : ℚ) / (kwWords.length : ℚ) ≤ 1
            have hle : ((kwWords.filter
                (fun w => (pySplit (cleanStr sent.text)).contains w)).length : ℚ)
                ≤ (kwWords.length : ℚ) := by
              exact_mod_cast List.length_filter_le _ _
            have hpos : (0 : ℚ) ≤ (kwWords.length : ℚ) := by positivity
            exact div_le_one_of_le₀ hle hpos
          case isFalse hfr => exact absurd h (by simp)
        case isFalse hlen => exact absurd h (by simp)
    case isFalse hkw => exact absurd h (by simp)

/-- C8: sentence matching priority, corrected.  The actual order is:
source-sentence map, then shared numeric token, then the fallback stage
(direct substring, contiguous word run, shared-word ratio).  Part one: when
the source stage fails and the numeric stage succeeds, its result is
returned -- the exact-phrase fallback is never consulted, so a digit-bearing
query can be placed by a numeric match even when another sentence contains
the exact phrase.  Part two: within the fallback stage, an exact-phrase
candidate always wins and ties are broken by earliest sentence startTime. -/
theorem c8_amended :
    (∀ (srcMap : List (String × List String)) (sents : List SentenceTiming)
        (kwRaw : String) (r : SentenceTiming × ℤ),
      sourceStage srcMap sents (cleanChars (pyStrip (kwRaw.data.map asciiLower))) = none →
      numericStage sents (pyStrip (kwRaw.data.map asciiLower)) = some r →
      findElementSentence srcMap sents kwRaw = some r) ∧
    (∀ (sents : List SentenceTiming) (kwClean : List Char) (r : SentenceTiming × ℤ),
      fallbackStage sents kwClean = some r →
      kwClean ≠ [] →
      ∀ sent0 ∈ sents, pyContains (cleanStr sent0.text) kwClean = true →
        pyContains (cleanStr r.1.text) kwClean = true ∧
        r.1.startTime ≤ sent0.startTime) := by
  constructor
  · intro srcMap sents kwRaw r hsrc hnum
    unfold findElementSentence
    dsimp only
    rw [hsrc, hnum]
  · intro sents kwClean r h hk sent0 hs0 hd0
    unfold fallbackStage at h
    dsimp only at h
    obtain ⟨c, hpick, hmap⟩ := Option.map_eq_some'.mp h
    obtain ⟨hmem, hbest⟩ := pickBestCand_spec _ c hpick
    -- the direct candidate built from sent0 is among the candidates
    have hc0 : (⟨sent0, 3, 1, pyFind (cleanStr sent0.text) kwClean⟩ : MatchCand)
        ∈ sents.filterMap (fallbackCand kwClean (pySplit kwClean)) := by
      refine List.mem_filterMap.mpr ⟨sent0, hs0, ?_⟩
      exact fallbackCand_direct kwClean (pySplit kwClean) sent0 hk hd0
    have hnb := hbest _ hc0
    -- shape of the winning candidate
    obtain ⟨s1, hs1, hfc⟩ := List.mem_filterMap.mp hmem
    obtain ⟨hcsent, hsle, hfle, hdir⟩ := fallbackCand_shape kwClean _ s1 c hfc
    unfold betterCand at hnb
    push_neg at hnb
    obtain ⟨hnb1, hnb2, hnb3⟩ := hnb
    have hscore : c.score = 3 := by
      simp only at hnb1
      omega
    obtain ⟨hdir1, hfr1⟩ := hdir hscore
    have hfr : c.frac = 1 := by
      have := hnb2 (by simp only; omega)
      simp only at this
      linarith
    have hstart : c.sent.startTime ≤ sent0.startTime := by
      have := hnb3 (by simp only; omega) (by simp only; linarith)
      simp only at this
      linarith
    have hr1 : r.1 = c.sent := by rw [← hmap]
    refine ⟨?_, ?_⟩
    · rw [hr1, hcsent]
      exact hdir1
    · rw [hr1]
      exact hstart

/-- The query "60 damage" has an exact-phrase match in `c8sent2`, yet the
matcher places it in `c8sent1` via the shared numeric token "60". -/
theorem c8_counterexample :
    (findElementSentence [] [c8sent1, c8sent2] "60 damage").map (fun r => r.1) =
      some c8sent1 ∧
    pyContains (cleanStr c8sent2.text)
      (cleanChars (pyStrip ("60 damage".data.map asciiLower))) = true ∧
    c8sent1 ≠ c8sent2 := by
  refine ⟨by with_unfolding_all rfl, by with_unfolding_all rfl, ?_⟩
  with_unfolding_all decide

/-- Witness for C8 at the two concrete sentences. -/
theorem c8_witness :
    findElementSentence [] [c8sent1, c8sent2] "60 damage" = some (c8sent1, 10) ∧
    (pyContains (cleanStr c8sent2.text)
        (cleanChars (pyStrip ("60 damage".data.map asciiLower))) = true ∧
      c8sent2.startTime ≤ c8sent2.startTime) := by
  constructor
  · exact c8_amended.1 [] [c8sent1, c8sent2] "60 damage" (c8sent1, 10)
      (by with_unfolding_all rfl) (by with_unfolding_all rfl)
  · exact c8_amended.2 [c8sent1, c8sent2]
      (cleanChars (pyStrip ("60 damage".data.map asciiLower))) (c8sent2, 9)
      (by with_unfolding_all rfl) (by with_unfolding_all decide) c8sent2
      (by with_unfolding_all decide) (by with_unfolding_all rfl)

theorem maxDurationFor_pos (k : String) : 0 < maxDurationFor k := by
  unfold maxDurationFor
  split_ifs <;> norm_num

theorem splitScene_eq (s : Scene) :
    splitScene s =
      (List.range ((sceneDur s / maxDurationFor s.kind).floor.toNat + 1)).map
        (fun j =>
          { sceneNumber := s.sceneNumber + (j : ℚ) * (1/10),
            startTime := s.startTime + (j : ℚ) * splitDur s,
            endTime := s.startTime + (j : ℚ) * splitDur s + splitDur s,
            kind := s.kind,
            scriptText := s.scriptText,
            elements := s.elements.filter (fun e =>
              s.startTime + (j : ℚ) * splitDur s ≤ e.timestamp ∧
              e.timestamp < s.startTime + (j : ℚ) * splitDur s + splitDur s) }) := rfl

/-- C7: over-long Ambient scenes are split, over-long evidence scenes are
capped.  An evidence-kind scene whose duration exceeds its maximum is
truncated to `start + max`; any other over-long scene is replaced by
`int(duration/max)+1` sub-scenes of equal length that are contiguous, start
at the scene's start, end at the scene's end, keep the scene's kind, and
receive each in-range element exactly once (the unique sub-scene whose
half-open range contains its timestamp); a 50s Ambient scene becomes two
25s scenes with its elements partitioned between them. -/
theorem c7_split :
    (∀ s : Scene, sceneDur s > maxDurationFor s.kind →
      capKinds.contains s.kind = true →
      fix3Scene s = [{ s with endTime := s.startTime + maxDurationFor s.kind }]) ∧
    (∀ s : Scene, sceneDur s > maxDurationFor s.kind →
      capKinds.contains s.kind = false →
      fix3Scene s = splitScene s) ∧
    (∀ s : Scene, sceneDur s > maxDurationFor s.kind →
      (splitScene s).length = (sceneDur s / maxDurationFor s.kind).floor.toNat + 1 ∧
      (∀ t ∈ splitScene s,
        sceneDur t = sceneDur s / ((splitScene s).length : ℚ) ∧ t.kind = s.kind) ∧
      List.Chain' (fun a b => a.endTime = b.startTime) (splitScene s) ∧
      (splitScene s).head?.map Scene.startTime = some s.startTime ∧
      (splitScene s).getLast?.map Scene.endTime = some s.endTime ∧
      (∀ e ∈ s.elements, s.startTime ≤ e.timestamp → e.timestamp < s.endTime →
        ∃! t, t ∈ splitScene s ∧ e ∈ t.elements)) ∧
    fix3Scene c7scene =
      [{ sceneNumber := 1, startTime := 0, endTime := 25, kind := "gameplay_icons",
         elements := [c7elem10] },
       { sceneNumber := 11/10, startTime := 25, endTime := 50, kind := "gameplay_icons",
         elements := [c7elem30] }] := by
  refine ⟨?_, ?_, ?_, ?_⟩
  · intro s hd hc
    unfold fix3Scene
    dsimp only
    rw [if_pos hd, if_pos hc]
  · intro s hd hc
    unfold fix3Scene
    dsimp only
    rw [if_pos hd, if_neg (by intro hmem; rw [hc] at hmem; exact Bool.noConfusion hmem)]
  · intro s hd
    have hmax := maxDurationFor_pos s.kind
    have hdpos : 0 < sceneDur s := lt_trans hmax hd
    have hk : splitDur s =
        sceneDur s / (((sceneDur s / maxDurationFor s.kind).floor.toNat + 1 : ℕ) : ℚ) := rfl
    have hnpos : (0 : ℚ) < (((sceneDur s / maxDurationFor s.kind).floor.toNat + 1 : ℕ) : ℚ) := by
      exact_mod_cast Nat.succ_pos _
    have hsdpos : 0 < splitDur s := by
      rw [hk]
      positivity
    have hlen : (splitScene s).length =
        (sceneDur s / maxDurationFor s.kind).floor.toNat + 1 := by
      rw [splitScene_eq, List.length_map, List.length_range]
    have hfull : s.startTime +
        ((((sceneDur s / maxDurationFor s.kind).floor.toNat + 1 : ℕ) : ℚ)) * splitDur s
        = s.endTime := by
      rw [hk, mul_div_cancel₀ _ (ne_of_gt hnpos)]
      unfold sceneDur
      ring
    refine ⟨hlen, ?_, ?_, ?_, ?_, ?_⟩
    · intro t ht
      rw [splitScene_eq] at ht
      obtain ⟨j, hj, rfl⟩ := List.mem_map.mp ht
      refine ⟨?_, rfl⟩
      rw [hlen, ← hk]
      unfold sceneDur
      dsimp only
      ring
    · rw [splitScene_eq, List.chain'_map]
      rw [List.chain'_range_succ]
      intro m hm
      dsimp only
      push_cast
      ring
    · rw [splitScene_eq, List.range_succ_eq_map, List.map_cons, List.head?_cons,
        Option.map_some']
      congr 1
      dsimp only
      push_cast
      ring
    · rw [splitScene_eq, List.range_succ, List.map_append, List.map_cons, List.map_nil,
        List.getLast?_concat, Option.map_some']
      congr 1
      dsimp only
      push_cast at hfull
      linarith [hfull]
    · intro e he h1 h2
      have hfr0 : (0 : ℚ) ≤ (e.timestamp - s.startTime) / splitDur s :=
        div_nonneg (by linarith) hsdpos.le
      have hj0nn : 0 ≤ ⌊(e.timestamp - s.startTime) / splitDur s⌋ :=
        Int.floor_nonneg.mpr hfr0
      have hcastQ : ((⌊(e.timestamp - s.startTime) / splitDur s⌋.toNat : ℕ) : ℚ)
          = ((⌊(e.timestamp - s.startTime) / splitDur s⌋ : ℤ) : ℚ) := by
        exact_mod_cast Int.toNat_of_nonneg hj0nn
      have hfl := Int.floor_le ((e.timestamp - s.startTime) / splitDur s)
      have h3 : ((⌊(e.timestamp - s.startTime) / splitDur s⌋ : ℤ) : ℚ) * splitDur s
          ≤ e.timestamp - s.startTime := by
        have hm := mul_le_mul_of_nonneg_right hfl hsdpos.le
        rwa [div_mul_cancel₀ _ (ne_of_gt hsdpos)] at hm
      have hfl2 := Int.lt_floor_add_one ((e.timestamp - s.startTime) / splitDur s)
      have h4 : e.timestamp - s.startTime
          < (((⌊(e.timestamp - s.startTime) / splitDur s⌋ : ℤ) : ℚ) + 1) * splitDur s := by
        have hm := mul_lt_mul_of_pos_right hfl2 hsdpos
        rw [div_mul_cancel₀ _ (ne_of_gt hsdpos)] at hm
        linarith [hm]
      have hlow : s.startTime +
          (⌊(e.timestamp - s.startTime) / splitDur s⌋.toNat : ℚ) * splitDur s
          ≤ e.timestamp := by
        rw [hcastQ]
        linarith
      have hhigh : e.timestamp < s.startTime +
          (⌊(e.timestamp - s.startTime) / splitDur s⌋.toNat : ℚ) * splitDur s
          + splitDur s := by
        rw [hcastQ]
        linarith
      have hlt : ⌊(e.timestamp - s.startTime) / splitDur s⌋.toNat
          < (sceneDur s / maxDurationFor s.kind).floor.toNat + 1 := by
        have hts : e.timestamp - s.startTime <
            (((sceneDur s / maxDurationFor s.kind).floor.toNat + 1 : ℕ) : ℚ) * splitDur s := by
          linarith [hfull]
        have hdiv : (e.timestamp - s.startTime) / splitDur s
            < (((sceneDur s / maxDurationFor s.kind).floor.toNat + 1 : ℕ) : ℚ) := by
          rw [div_lt_iff₀ hsdpos]
          linarith
        have hflt : ⌊(e.timestamp - s.startTime) / splitDur s⌋
            < (((sceneDur s / maxDurationFor s.kind).floor.toNat + 1 : ℕ) : ℤ) := by
          rw [Int.floor_lt]
          push_cast
          push_cast at hdiv
          linarith
        omega
      refine ⟨_, ⟨List.mem_map.mpr ⟨⌊(e.timestamp - s.startTime) / splitDur s⌋.toNat,
        List.mem_range.mpr hlt, rfl⟩, ?_⟩, ?_⟩
      · dsimp only
        rw [List.mem_filter]
        refine ⟨he, ?_⟩
        rw [decide_eq_true_eq]
        exact ⟨hlow, hhigh⟩
      · rintro t' ⟨ht', het'⟩
        rw [splitScene_eq] at ht'
        obtain ⟨j, hj, rfl⟩ := List.mem_map.mp ht'
        dsimp only at het'
        rw [List.mem_filter, decide_eq_true_eq] at het'
        obtain ⟨-, hjl, hjh⟩ := het'
        have hjeq : (j : ℤ) = ⌊(e.timestamp - s.startTime) / splitDur s⌋ := by
          symm
          rw [Int.floor_eq_iff]
          constructor
          · push_cast
            rw [le_div_iff₀ hsdpos]
            linarith
          · push_cast
            rw [div_lt_iff₀ hsdpos]
            linarith
        have hje : j = ⌊(e.timestamp - s.startTime) / splitDur s⌋.toNat := by omega
        subst hje
        rfl
  · with_unfolding_all rfl


/-- Witness for C7 at the Scenario E scene and an over-long reddit scene. -/
theorem c7_witness :
    sceneDur c7cap > maxDurationFor c7cap.kind ∧
    fix3Scene c7cap = [{ c7cap with endTime := c7cap.startTime + maxDurationFor c7cap.kind }] ∧
    sceneDur c7scene > maxDurationFor c7scene.kind ∧
    fix3Scene c7scene = splitScene c7scene ∧
    (∃! t, t ∈ splitScene c7scene ∧ c7elem10 ∈ t.elements) := by
  have h1 := c7_split.1 c7cap (by with_unfolding_all decide) (by with_unfolding_all rfl)
  have h2 := c7_split.2.1 c7scene (by with_unfolding_all decide) (by with_unfolding_all rfl)
  have h3 := (c7_split.2.2.1 c7scene (by with_unfolding_all decide)).2.2.2.2.2 c7elem10
    (by with_unfolding_all decide) (by with_unfolding_all decide) (by with_unfolding_all decide)
  exact ⟨by with_unfolding_all decide, h1, by with_unfolding_all decide, h2, h3⟩

theorem countP_eraseIdx (q : α → Bool) :
    ∀ (l : List α) (i : ℕ) (a : α), l.get? i = some a →
      (l.eraseIdx i).countP q + (if q a then 1 else 0) = l.countP q := by
  intro l
  induction l with
  | nil => intro i a h; simp at h
  | cons b t ih =>
    intro i a h
    cases i with
    | zero =>
      simp only [List.get?_cons_zero, Option.some.injEq] at h
      subst h
      dsimp only [List.eraseIdx]
      rw [List.countP_cons]
    | succ j =>
      simp only [List.get?_cons_succ] at h
      have := ih j a h
      dsimp only [List.eraseIdx]
      rw [List.countP_cons, List.countP_cons]
      omega

theorem mkFillElement_payload (kw : Keyword) (ts : ℚ) :
    elementPayload (mkFillElement kw ts) = kw.word := by
  unfold mkFillElement
  split <;> (unfold elementPayload; rfl)

theorem popTimed_count (u : Bool) (tm : List (String × List ℚ)) (a b : ℚ)
    (unused : List Keyword) (kw : Keyword) (unused' : List Keyword)
    (h : popTimed u tm a b unused = some (kw, unused'))
    (q : Keyword → Bool) :
    unused'.countP q + (if q kw then 1 else 0) = unused.countP q := by
  unfold popTimed at h
  split at h
  · dsimp only at h
    split at h
    · split at h
      · rename_i hget
        injection h with h
        injection h with h1 h2
        subst h1
        subst h2
        exact countP_eraseIdx q unused _ _ hget
      · exact absurd h (by simp)
    · exact absurd h (by simp)
  · exact absurd h (by simp)

theorem popIconFallback_count (unused : List Keyword) (kw : Keyword)
    (unused' : List Keyword)
    (h : popIconFallback unused = some (kw, unused'))
    (q : Keyword → Bool) :
    unused'.countP q + (if q kw then 1 else 0) = unused.countP q := by
  unfold popIconFallback at h
  split at h
  · split at h
    · rename_i hget
      injection h with h
      injection h with h1 h2
      subst h1
      subst h2
      exact countP_eraseIdx q unused _ _ hget
    · exact absurd h (by simp)
  · exact absurd h (by simp)

theorem popKeywordForWindow_count (u : Bool) (tm : List (String × List ℚ))
    (a b : ℚ) (unused : List Keyword) (kw : Keyword) (unused' : List Keyword)
    (h : popKeywordForWindow u tm a b unused = some (kw, unused'))
    (q : Keyword → Bool) :
    unused'.countP q + (if q kw then 1 else 0) = unused.countP q := by
  unfold popKeywordForWindow at h
  split at h
  · rename_i heq
    injection h with h
    subst h
    exact popTimed_count u tm a b unused kw unused' heq q
  · exact popIconFallback_count unused kw unused' h q


theorem sortByTs_countP (q : Element → Bool) (els : List Element) :
    (sortByTs els).countP q = els.countP q :=
  (List.perm_insertionSort elemLE els).countP_eq q

theorem fillLoop_count (u : Bool) (tm : List (String × List ℚ))
    (a b st : ℚ) (p : String) :
    ∀ (rem i : ℕ) (els : List Element) (times : List ℚ) (unused : List Keyword),
      (fillLoop u tm a b st i rem els times unused).1.countP
          (fun e => elementPayload e = p)
        + (fillLoop u tm a b st i rem els times unused).2.countP
          (fun kw => kw.word = p)
        = els.countP (fun e => elementPayload e = p)
          + unused.countP (fun kw => kw.word = p) := by
  intro rem
  induction rem with
  | zero => intro i els times unused; rfl
  | succ r ih =>
    intro i els times unused
    show (fillLoop u tm a b st i (r + 1) els times unused).1.countP _
        + (fillLoop u tm a b st i (r + 1) els times unused).2.countP _ = _
    rw [fillLoop]
    dsimp only
    split
    · rfl
    · split <;>
        (split
         next => exact ih (i + 1) els times unused
         next =>
           split
           next => rfl
           next kw unused' hpop =>
             rw [ih (i + 1) _ _ unused']
             have hc := popKeywordForWindow_count u tm a b unused kw unused' hpop
               (fun kw => kw.word = p)
             rw [List.countP_append]
             simp only [List.countP_cons, List.countP_nil, mkFillElement_payload]
             omega)


theorem payloadCount_cons (p : String) (s : Scene) (rest : List Scene) :
    payloadCount p (s :: rest) =
      s.elements.countP (fun e => elementPayload e = p) + payloadCount p rest := rfl

theorem fillScene_count (u : Bool) (tm : List (String × List ℚ))
    (unused : List Keyword) (s : Scene) (p : String) :
    (fillScene u tm unused s).1.elements.countP (fun e => elementPayload e = p)
      + (fillScene u tm unused s).2.countP (fun kw => kw.word = p)
    = s.elements.countP (fun e => elementPayload e = p)
      + unused.countP (fun kw => kw.word = p) := by
  unfold fillScene
  dsimp only
  split
  · rw [sortByTs_countP]
    exact fillLoop_count u tm s.startTime s.endTime _ p _ 0 s.elements _ unused
  · exact fillLoop_count u tm s.startTime s.endTime _ p _ 0 s.elements _ unused

theorem fillPass1_count (u : Bool) (tm : List (String × List ℚ)) (p : String) :
    ∀ (scenes : List Scene) (unused : List Keyword),
      payloadCount p (fillPass1 u tm unused scenes).1
        + (fillPass1 u tm unused scenes).2.countP (fun kw => kw.word = p)
      = payloadCount p scenes + unused.countP (fun kw => kw.word = p) := by
  intro scenes
  induction scenes with
  | nil => intro unused; rfl
  | cons s rest ih =>
    intro unused
    rw [fillPass1]
    dsimp only
    split
    · dsimp only
      rw [payloadCount_cons, payloadCount_cons]
      have h1 := fillScene_count u tm unused s p
      have h2 := ih (fillScene u tm unused s).2
      omega
    · dsimp only
      rw [payloadCount_cons, payloadCount_cons]
      have h2 := ih unused
      omega

theorem gapFillLoop_count (u : Bool) (tm : List (String × List ℚ))
    (ga gb st se : ℚ) (p : String) :
    ∀ (rem i : ℕ) (els : List Element) (times : List ℚ) (unused : List Keyword),
      (gapFillLoop u tm ga gb st se i rem els times unused).1.countP
          (fun e => elementPayload e = p)
        + (gapFillLoop u tm ga gb st se i rem els times unused).2.2.countP
          (fun kw => kw.word = p)
        = els.countP (fun e => elementPayload e = p)
          + unused.countP (fun kw => kw.word = p) := by
  intro rem
  induction rem with
  | zero => intro i els times unused; rfl
  | succ r ih =>
    intro i els times unused
    rw [gapFillLoop]
    dsimp only
    split
    · rfl
    · split
      · exact ih (i + 1) els times unused
      · split
        · exact ih (i + 1) els times unused
        · split
          next => rfl
          next kw unused' hpop =>
            rw [ih (i + 1) _ _ unused']
            have hc := popKeywordForWindow_count u tm ga gb unused kw unused' hpop
              (fun kw => kw.word = p)
            rw [List.countP_append]
            simp only [List.countP_cons, List.countP_nil, mkFillElement_payload]
            omega

theorem gapFillGaps_count (u : Bool) (tm : List (String × List ℚ))
    (thr se : ℚ) (p : String) :
    ∀ (gaps : List (ℚ × ℚ)) (els : List Element) (times : List ℚ)
      (unused : List Keyword),
      (gapFillGaps u tm thr se gaps els times unused).1.countP
          (fun e => elementPayload e = p)
        + (gapFillGaps u tm thr se gaps els times unused).2.countP
          (fun kw => kw.word = p)
        = els.countP (fun e => elementPayload e = p)
          + unused.countP (fun kw => kw.word = p) := by
  intro gaps
  induction gaps with
  | nil => intro els times unused; rfl
  | cons g rest ih =>
    intro els times unused
    rw [gapFillGaps]
    dsimp only
    split
    · rfl
    · split
      · exact ih els times unused
      · rw [ih _ _ _]
        rw [sortByTs_countP]
        exact gapFillLoop_count u tm g.1 g.2 _ se p _ 0 els times unused

theorem fillPass2_count (u : Bool) (tm : List (String × List ℚ)) (p : String) :
    ∀ (scenes : List Scene) (unused : List Keyword),
      payloadCount p (fillPass2 u tm unused scenes).1
        + (fillPass2 u tm unused scenes).2.countP (fun kw => kw.word = p)
      = payloadCount p scenes + unused.countP (fun kw => kw.word = p) := by
  intro scenes
  induction scenes with
  | nil => intro unused; rfl
  | cons s rest ih =>
    intro unused
    have key : ∀ (G : List Element × List Keyword),
        G.1.countP (fun e => elementPayload e = p)
            + G.2.countP (fun kw => kw.word = p)
          = s.elements.countP (fun e => elementPayload e = p)
            + unused.countP (fun kw => kw.word = p) →
        payloadCount p ({ s with elements := G.1 } :: (fillPass2 u tm G.2 rest).1)
            + (fillPass2 u tm G.2 rest).2.countP (fun kw => kw.word = p)
          = payloadCount p (s :: rest) + unused.countP (fun kw => kw.word = p) := by
      intro G hG
      rw [payloadCount_cons, payloadCount_cons]
      dsimp only
      have h2 := ih G.2
      omega
    rw [fillPass2]
    dsimp only
    split
    · try dsimp only
      rw [payloadCount_cons, payloadCount_cons]
      have h2 := ih unused
      omega
    · split
      · rfl
      · split
        · try dsimp only
          rw [payloadCount_cons, payloadCount_cons]
          have h2 := ih unused
          omega
        · try dsimp only
          repeat' split
          all_goals
            try (try dsimp only
                 rw [payloadCount_cons, payloadCount_cons]
                 have h2 := ih unused
                 omega)
          all_goals
            (try dsimp only
             exact key _ (gapFillGaps_count u tm _ s.endTime p _ s.elements _ unused))


theorem countP_filter_le (f q : α → Bool) (l : List α) :
    (l.filter f).countP q ≤ l.countP q := by
  induction l with
  | nil => exact le_refl _
  | cons a t ih =>
    simp only [List.filter_cons, List.countP_cons]
    split
    · simp only [List.countP_cons]
      omega
    · omega

/-- C9: the density-balancing pass can duplicate payloads, corrected to a
counting bound.  Every element the pass inserts consumes one entry of the
unused pool (each pop removes the popped keyword from the pool), so for
every payload `p` the output count is bounded by the input count plus the
number of pool entries with that word; in particular, when the available
pool itself holds each word at most once, a payload absent from the input
timeline appears at most once in the output.  The claim's "never creates
two elements with the same keyword payload" fails when `available` lists
the same word twice. -/
theorem c9_amended :
    (∀ (available : List Keyword) (timeMap : List (String × List ℚ))
        (useTiming : Bool) (scenes : List Scene) (p : String),
      payloadCount p (fillEmptyScenes available timeMap useTiming scenes)
        ≤ payloadCount p scenes + available.countP (fun kw => kw.word = p)) ∧
    (∀ (available : List Keyword) (timeMap : List (String × List ℚ))
        (useTiming : Bool) (scenes : List Scene) (p : String),
      available.countP (fun kw => kw.word = p) ≤ 1 →
      payloadCount p scenes = 0 →
      payloadCount p (fillEmptyScenes available timeMap useTiming scenes) ≤ 1) := by
  have main : ∀ (available : List Keyword) (timeMap : List (String × List ℚ))
      (useTiming : Bool) (scenes : List Scene) (p : String),
      payloadCount p (fillEmptyScenes available timeMap useTiming scenes)
        ≤ payloadCount p scenes + available.countP (fun kw => kw.word = p) := by
    intro available timeMap useTiming scenes p
    unfold fillEmptyScenes
    split
    · exact Nat.le_add_right _ _
    · dsimp only
      split
      · exact Nat.le_add_right _ _
      · have h1 := fillPass1_count useTiming timeMap p scenes
          (available.filter (fun kw =>
            (usedKeywords scenes).contains (lowerStr kw.word) = false))
        have h2 := fillPass2_count useTiming timeMap p
          (fillPass1 useTiming timeMap
            (available.filter (fun kw =>
              (usedKeywords scenes).contains (lowerStr kw.word) = false)) scenes).1
          (fillPass1 useTiming timeMap
            (available.filter (fun kw =>
              (usedKeywords scenes).contains (lowerStr kw.word) = false)) scenes).2
        have h3 := countP_filter_le
          (fun kw => decide ((usedKeywords scenes).contains (lowerStr kw.word) = false))
          (fun kw => decide (kw.word = p)) available
        omega
  refine ⟨main, ?_⟩
  intro available timeMap useTiming scenes p hc hz
  have := main available timeMap useTiming scenes p
  omega

/-- A pool holding the same keyword twice produces two elements with the
payload "edgar" in a single scene. -/
theorem c9_counterexample :
    payloadCount "edgar" [c9gp] = 0 ∧
    ((fillEmptyScenes [c9kw, c9kw] [] false [c9gp]).map
      (fun s => s.elements.map elementPayload)) = [["edgar", "edgar"]] ∧
    payloadCount "edgar" (fillEmptyScenes [c9kw, c9kw] [] false [c9gp]) = 2 := by
  refine ⟨rfl, by with_unfolding_all rfl, by with_unfolding_all rfl⟩

/-- Witness for C9 at a singleton pool and one empty gameplay scene. -/
theorem c9_witness :
    payloadCount "edgar" (fillEmptyScenes [c9kw] [] false [c9gp])
      ≤ payloadCount "edgar" [c9gp] + [c9kw].countP (fun kw => kw.word = "edgar") ∧
    payloadCount "edgar" (fillEmptyScenes [c9kw] [] false [c9gp]) ≤ 1 :=
  ⟨c9_amended.1 [c9kw] [] false [c9gp] "edgar",
   c9_amended.2 [c9kw] [] false [c9gp] "edgar" (by with_unfolding_all decide)
     (by with_unfolding_all rfl)⟩

theorem adjustEnd_of_tol (e ns : ℚ) (h1 : -(1/20) ≤ ns - e) (h2 : ns - e ≤ 1/20) :
    adjustEnd e ns = e := by
  unfold adjustEnd
  dsimp only
  rw [if_neg (by linarith), if_neg (by linarith)]

theorem adjustEnd_tol (e ns : ℚ) :
    -(1/20) ≤ ns - adjustEnd e ns ∧ ns - adjustEnd e ns ≤ 1/20 := by
  unfold adjustEnd
  dsimp only
  split_ifs with h1 h2 <;> constructor <;> linarith

theorem fixGapsPairs_head :
    ∀ (t : Scene) (rest : List Scene),
      ∃ h' tl, fixGapsPairs (t :: rest) = h' :: tl ∧ h'.startTime = t.startTime := by
  intro t rest
  cases rest with
  | nil => exact ⟨t, [], rfl, rfl⟩
  | cons u r => exact ⟨{ t with endTime := adjustEnd t.endTime u.startTime }, _, rfl, rfl⟩

theorem fixGapsPairs_chain : ∀ (l : List Scene), List.Chain' gapTol (fixGapsPairs l)
  | [] => List.chain'_nil
  | [s] => by
    rw [fixGapsPairs]
    exact List.chain'_singleton s
  | s :: t :: rest => by
    rw [fixGapsPairs]
    obtain ⟨h', tl, heq, hst⟩ := fixGapsPairs_head t rest
    rw [heq]
    rw [List.chain'_cons]
    refine ⟨?_, heq ▸ fixGapsPairs_chain (t :: rest)⟩
    unfold gapTol
    dsimp only
    rw [hst]
    exact adjustEnd_tol s.endTime t.startTime

theorem fixGapsPairs_id : ∀ (l : List Scene), List.Chain' gapTol l → fixGapsPairs l = l
  | [] => fun _ => rfl
  | [s] => fun _ => rfl
  | s :: t :: rest => fun h => by
    rw [List.chain'_cons] at h
    rw [fixGapsPairs]
    rw [adjustEnd_of_tol s.endTime t.startTime h.1.1 h.1.2]
    rw [fixGapsPairs_id (t :: rest) h.2]

theorem fixGapsPairs_starts :
    ∀ (l : List Scene), (fixGapsPairs l).map Scene.startTime = l.map Scene.startTime
  | [] => rfl
  | [s] => rfl
  | s :: t :: rest => by
    rw [fixGapsPairs, List.map_cons, List.map_cons, fixGapsPairs_starts (t :: rest),
      List.map_cons]


theorem fixFirstScene_cons (x : Scene) (r : List Scene) :
    ∃ h', fixFirstScene (x :: r) = h' :: r ∧ h'.startTime ≤ 1/100 ∧
      h'.endTime = x.endTime ∧
      (h'.startTime = x.startTime ∨ (x.startTime > 1/100 ∧ h'.startTime = 0)) := by
  unfold fixFirstScene
  dsimp only
  split_ifs with hgt
  · exact ⟨_, rfl, by norm_num, rfl, Or.inr ⟨hgt, rfl⟩⟩
  · exact ⟨x, rfl, le_of_not_lt hgt, rfl, Or.inl rfl⟩

theorem fixFirstScene_id (x : Scene) (r : List Scene) (h : x.startTime ≤ 1/100) :
    fixFirstScene (x :: r) = x :: r := by
  unfold fixFirstScene
  dsimp only
  rw [if_neg (not_lt.mpr h)]

theorem fixFirstScene_chain (x : Scene) (r : List Scene)
    (h : List.Chain' gapTol (x :: r)) :
    List.Chain' gapTol (fixFirstScene (x :: r)) := by
  obtain ⟨h', heq, -, hend, -⟩ := fixFirstScene_cons x r
  rw [heq]
  cases r with
  | nil => exact List.chain'_singleton _
  | cons y r' =>
    rw [List.chain'_cons] at h ⊢
    refine ⟨?_, h.2⟩
    unfold gapTol at h ⊢
    rw [hend]
    exact h.1

theorem fixLastScene_cons (total : ℚ) (t : Scene) (r : List Scene) :
    ∃ h' tl, fixLastScene total (t :: r) = h' :: tl ∧ h'.startTime = t.startTime := by
  cases r with
  | nil =>
    rw [fixLastScene]
    split_ifs
    · exact ⟨_, [], rfl, rfl⟩
    · exact ⟨t, [], rfl, rfl⟩
  | cons u r' => exact ⟨t, _, rfl, rfl⟩

theorem fixLastScene_starts (total : ℚ) :
    ∀ (l : List Scene), (fixLastScene total l).map Scene.startTime = l.map Scene.startTime
  | [] => rfl
  | [s] => by
    rw [fixLastScene]
    split_ifs <;> rfl
  | s :: t :: r => by
    rw [show fixLastScene total (s :: t :: r) = s :: fixLastScene total (t :: r) from rfl]
    simp only [List.map_cons, fixLastScene_starts total (t :: r)]

theorem fixLastScene_chain (total : ℚ) :
    ∀ (l : List Scene), List.Chain' gapTol l → List.Chain' gapTol (fixLastScene total l)
  | [] => fun _ => List.chain'_nil
  | [s] => fun _ => by
    rw [fixLastScene]
    split_ifs <;> exact List.chain'_singleton _
  | s :: t :: r => fun h => by
    rw [show fixLastScene total (s :: t :: r) = s :: fixLastScene total (t :: r) from rfl]
    rw [List.chain'_cons] at h
    obtain ⟨h', tl, heq, hst⟩ := fixLastScene_cons total t r
    rw [heq, List.chain'_cons]
    refine ⟨?_, heq ▸ fixLastScene_chain total (t :: r) h.2⟩
    unfold gapTol at h ⊢
    rw [hst]
    exact h.1

theorem fixLastScene_last (total : ℚ) :
    ∀ (l : List Scene) (s' : Scene),
      (fixLastScene total l).getLast? = some s' → ¬ s'.endTime < total - 1/2
  | [], s' => by
    intro h
    exact absurd h (by simp [fixLastScene])
  | [s], s' => by
    intro h
    rw [fixLastScene] at h
    split_ifs at h with hc
    · simp only [List.getLast?_singleton, Option.some.injEq] at h
      subst h
      dsimp only
      linarith
    · simp only [List.getLast?_singleton, Option.some.injEq] at h
      subst h
      exact hc
  | s :: t :: r, s' => by
    intro h
    rw [show fixLastScene total (s :: t :: r) = s :: fixLastScene total (t :: r) from rfl] at h
    obtain ⟨h', tl, heq, -⟩ := fixLastScene_cons total t r
    rw [heq, List.getLast?_cons_cons] at h
    exact fixLastScene_last total (t :: r) s' (by rw [heq]; exact h)

theorem fixLastScene_id (total : ℚ) :
    ∀ (l : List Scene),
      (∀ s' : Scene, l.getLast? = some s' → ¬ s'.endTime < total - 1/2) →
      fixLastScene total l = l
  | [] => fun _ => rfl
  | [s] => fun h => by
    rw [fixLastScene]
    rw [if_neg (h s (by rw [List.getLast?_singleton]))]
  | s :: t :: r => fun h => by
    rw [show fixLastScene total (s :: t :: r) = s :: fixLastScene total (t :: r) from rfl]
    rw [fixLastScene_id total (t :: r) (fun s' hs' => h s' (by
      rw [List.getLast?_cons_cons]
      exact hs'))]

theorem sortedStart_iff (l : List Scene) :
    l.Sorted (leByKey Scene.startTime) ↔
      (l.map Scene.startTime).Pairwise (fun a b => a ≤ b) := by
  rw [List.pairwise_map]
  exact Iff.rfl

theorem sorted_of_starts_eq (a b : List Scene)
    (h : a.map Scene.startTime = b.map Scene.startTime)
    (hs : a.Sorted (leByKey Scene.startTime)) :
    b.Sorted (leByKey Scene.startTime) := by
  rw [sortedStart_iff] at hs ⊢
  rwa [h] at hs

theorem fixFirstScene_sorted (x : Scene) (r : List Scene)
    (h : (x :: r).Sorted (leByKey Scene.startTime)) :
    (fixFirstScene (x :: r)).Sorted (leByKey Scene.startTime) := by
  unfold fixFirstScene
  dsimp only
  split_ifs with hgt
  · rw [List.sorted_cons] at h ⊢
    refine ⟨?_, h.2⟩
    intro b hb
    have h2 := h.1 b hb
    unfold leByKey at h2 ⊢
    dsimp only
    linarith
  · exact h


/-- C10: the validator as a whole is not idempotent, but its FIX 4
boundary-repair stage is: re-running FIX 4 (sort by start, close gaps
beyond the 0.05s tolerance, anchor the first scene at 0, extend the last
scene to the total) on its own output changes nothing, because the output
is sorted with all pair gaps within tolerance, a first scene starting at or
below 0.01s and a last scene ending within 0.5s of the total. -/
theorem c10_amended (total : ℚ) (scenes : List Scene) :
    fix4 total (fix4 total scenes) = fix4 total scenes := by
  cases scenes with
  | nil => rfl
  | cons s0 r0 =>
    rw [show fix4 total (s0 :: r0) =
      fixLastScene total (fixFirstScene (fixGapsPairs (sortByStart (s0 :: r0)))) from rfl]
    have hSlen : (sortByStart (s0 :: r0)).length = r0.length + 1 := by
      unfold sortByStart
      rw [List.length_insertionSort]
      rfl
    obtain ⟨x, xs, hS⟩ : ∃ x xs, sortByStart (s0 :: r0) = x :: xs := by
      cases hS : sortByStart (s0 :: r0) with
      | nil => rw [hS] at hSlen; simp at hSlen
      | cons x xs => exact ⟨x, xs, rfl⟩
    have hSsorted : (x :: xs).Sorted (leByKey Scene.startTime) := by
      rw [← hS]
      exact List.sorted_insertionSort _ _
    rw [hS]
    obtain ⟨g, gs, hGhead, hGstart⟩ := fixGapsPairs_head x xs
    have hGchain : List.Chain' gapTol (fixGapsPairs (x :: xs)) := fixGapsPairs_chain _
    have hGsorted : (fixGapsPairs (x :: xs)).Sorted (leByKey Scene.startTime) :=
      sorted_of_starts_eq _ _ (fixGapsPairs_starts (x :: xs)).symm hSsorted
    rw [hGhead] at hGchain hGsorted ⊢
    obtain ⟨f, hFeq, hfle, hfend, -⟩ := fixFirstScene_cons g gs
    have hFchain : List.Chain' gapTol (fixFirstScene (g :: gs)) :=
      fixFirstScene_chain g gs hGchain
    have hFsorted := fixFirstScene_sorted g gs hGsorted
    rw [hFeq] at hFchain hFsorted ⊢
    obtain ⟨o, otl, hOeq, hostart⟩ := fixLastScene_cons total f gs
    have hOchain : List.Chain' gapTol (fixLastScene total (f :: gs)) :=
      fixLastScene_chain total _ hFchain
    have hOsorted : (fixLastScene total (f :: gs)).Sorted (leByKey Scene.startTime) :=
      sorted_of_starts_eq _ _ (fixLastScene_starts total (f :: gs)).symm hFsorted
    have hOlast : ∀ s' : Scene,
        (fixLastScene total (f :: gs)).getLast? = some s' →
        ¬ s'.endTime < total - 1/2 :=
      fun s' hs' => fixLastScene_last total (f :: gs) s' hs'
    rw [hOeq] at hOchain hOsorted hOlast ⊢
    have holeq : o.startTime ≤ 1/100 := hostart ▸ hfle
    rw [show fix4 total (o :: otl) =
      fixLastScene total (fixFirstScene (fixGapsPairs (sortByStart (o :: otl)))) from rfl]
    rw [show sortByStart (o :: otl) =
      (o :: otl).insertionSort (leByKey Scene.startTime) from rfl]
    rw [List.Sorted.insertionSort_eq hOsorted]
    rw [fixGapsPairs_id _ hOchain]
    rw [fixFirstScene_id o otl holeq]
    exact fixLastScene_id total (o :: otl) hOlast


/-- Two runs of the full validator differ: the first run truncates the
reddit scene to end at 10.2s but leaves its element at 10.3s; the second
run clamps that element to 10.1s. -/
theorem c10_counterexample :
    validateTimeline 1 0 0 30 (validateTimeline 1 0 0 30 [c10title, c10reddit, c10game])
      ≠ validateTimeline 1 0 0 30 [c10title, c10reddit, c10game] ∧
    ((validateTimeline 1 0 0 30 [c10title, c10reddit, c10game]).map
      (fun s => s.elements.map (fun e => e.timestamp))) = [[], [103/10], []] ∧
    ((validateTimeline 1 0 0 30
        (validateTimeline 1 0 0 30 [c10title, c10reddit, c10game])).map
      (fun s => s.elements.map (fun e => e.timestamp))) = [[], [101/10], []] := by
  refine ⟨by with_unfolding_all decide, by with_unfolding_all rfl,
    by with_unfolding_all rfl⟩

theorem firstUnused_not_used (n : ℕ) (used : List ℤ) (i : ℤ)
    (h : firstUnused n used = some i) : used.contains i = false := by
  unfold firstUnused at h
  obtain ⟨c, hfind, rfl⟩ := Option.map_eq_some'.mp h
  have hp := List.find?_some hfind
  simpa using hp

theorem pickIdx_not_used (n : ℕ) (used : List ℤ) (ex : Option ℤ) (i : ℤ)
    (h : pickIdx n used ex = some i) : used.contains i = false := by
  unfold pickIdx at h
  split at h
  · split at h
    · rename_i hc
      injection h with h
      subst h
      exact hc.2.2
    · exact firstUnused_not_used n used i h
  · exact firstUnused_not_used n used i h


theorem sceneRedditIdxs_of_ne (s : Scene) (h : ¬ s.kind = "reddit_evidence") :
    sceneRedditIdxs s = [] := by
  unfold sceneRedditIdxs
  rw [if_neg h]

theorem sceneRedditIdxs_gameplay (s : Scene) :
    sceneRedditIdxs (toGameplayEmpty s) = [] :=
  sceneRedditIdxs_of_ne _
    (fun hh => absurd (show ("gameplay_icons" : String) = "reddit_evidence" from hh)
      (by decide))

theorem fix06Scene_reddit (numR numY numG : ℕ) (st : UsedSets) (s : Scene) :
    (sceneRedditIdxs (fix06Scene numR numY numG st s).2 = [] ∧
      (fix06Scene numR numY numG st s).1.usedReddit = st.usedReddit) ∨
    (∃ i, sceneRedditIdxs (fix06Scene numR numY numG st s).2 = [i] ∧
      (fix06Scene numR numY numG st s).1.usedReddit = i :: st.usedReddit ∧
      st.usedReddit.contains i = false) := by
  unfold fix06Scene
  split
  · rename_i hred
    split
    · exact Or.inl ⟨sceneRedditIdxs_gameplay s, rfl⟩
    · dsimp only
      split
      · exact Or.inl ⟨sceneRedditIdxs_gameplay s, rfl⟩
      · rename_i i hpick
        right
        refine ⟨i, ?_, rfl, pickIdx_not_used _ _ _ _ hpick⟩
        unfold sceneRedditIdxs
        rw [if_pos (by exact hred)]
        rfl
  · rename_i hnr
    split
    · rename_i hyt
      split
      · exact Or.inl ⟨sceneRedditIdxs_gameplay s, rfl⟩
      · dsimp only
        split
        · exact Or.inl ⟨sceneRedditIdxs_gameplay s, rfl⟩
        · exact Or.inl ⟨sceneRedditIdxs_of_ne _ (by exact hnr), rfl⟩
    · rename_i hnyt
      split
      · rename_i hgr
        split
        · exact Or.inl ⟨sceneRedditIdxs_gameplay s, rfl⟩
        · dsimp only
          split
          · exact Or.inl ⟨sceneRedditIdxs_gameplay s, rfl⟩
          · exact Or.inl ⟨sceneRedditIdxs_of_ne _ (by exact hnr), rfl⟩
      · exact Or.inl ⟨sceneRedditIdxs_of_ne _ hnr, rfl⟩


theorem fix06Aux_reddit (numR numY numG : ℕ) :
    ∀ (scenes : List Scene) (st : UsedSets),
      (redditIdxs (fix06Aux numR numY numG st scenes)).Nodup ∧
      ∀ i ∈ redditIdxs (fix06Aux numR numY numG st scenes),
        st.usedReddit.contains i = false := by
  intro scenes
  induction scenes with
  | nil =>
    intro st
    exact ⟨List.nodup_nil, by intro i hi; simp [redditIdxs, fix06Aux] at hi⟩
  | cons s rest ih =>
    intro st
    rw [show fix06Aux numR numY numG st (s :: rest) =
      (fix06Scene numR numY numG st s).2 ::
        fix06Aux numR numY numG (fix06Scene numR numY numG st s).1 rest from rfl]
    have hcons : redditIdxs ((fix06Scene numR numY numG st s).2 ::
        fix06Aux numR numY numG (fix06Scene numR numY numG st s).1 rest) =
        sceneRedditIdxs (fix06Scene numR numY numG st s).2 ++
        redditIdxs (fix06Aux numR numY numG (fix06Scene numR numY numG st s).1 rest) := rfl
    rw [hcons]
    obtain ⟨hrest, hfresh⟩ := ih (fix06Scene numR numY numG st s).1
    rcases fix06Scene_reddit numR numY numG st s with ⟨hz, hst⟩ | ⟨i, hone, hst, hnew⟩
    · rw [hz, List.nil_append]
      refine ⟨hrest, ?_⟩
      intro j hj
      have := hfresh j hj
      rwa [hst] at this
    · rw [hone]
      constructor
      · rw [List.singleton_append, List.nodup_cons]
        refine ⟨?_, hrest⟩
        intro hi
        have := hfresh i hi
        rw [hst] at this
        simp at this
      · intro j hj
        rw [List.singleton_append, List.mem_cons] at hj
        rcases hj with rfl | hj
        · exact hnew
        · have := hfresh j hj
          rw [hst] at this
          simp only [List.contains_cons, Bool.or_eq_false_iff] at this
          exact this.2


theorem sceneYoutubeIdxs_of_ne (s : Scene) (h : ¬ s.kind = "youtube_evidence") :
    sceneYoutubeIdxs s = [] := by
  unfold sceneYoutubeIdxs
  rw [if_neg h]

theorem sceneYoutubeIdxs_gameplay (s : Scene) :
    sceneYoutubeIdxs (toGameplayEmpty s) = [] :=
  sceneYoutubeIdxs_of_ne _
    (fun hh => absurd (show ("gameplay_icons" : String) = "youtube_evidence" from hh)
      (by decide))

theorem fix06Scene_youtube (numR numY numG : ℕ) (st : UsedSets) (s : Scene) :
    (sceneYoutubeIdxs (fix06Scene numR numY numG st s).2 = [] ∧
      (fix06Scene numR numY numG st s).1.usedYoutube = st.usedYoutube) ∨
    (∃ i, sceneYoutubeIdxs (fix06Scene numR numY numG st s).2 = [i] ∧
      (fix06Scene numR numY numG st s).1.usedYoutube = i :: st.usedYoutube ∧
      st.usedYoutube.contains i = false) := by
  unfold fix06Scene
  split
  · rename_i hred
    split
    · exact Or.inl ⟨sceneYoutubeIdxs_gameplay s, rfl⟩
    · dsimp only
      split
      · exact Or.inl ⟨sceneYoutubeIdxs_gameplay s, rfl⟩
      · refine Or.inl ⟨?_, rfl⟩
        refine sceneYoutubeIdxs_of_ne _ ?_
        intro hh
        have hh2 : s.kind = "youtube_evidence" := hh
        rw [hred] at hh2
        exact absurd hh2 (by decide)
  · rename_i hnr
    split
    · rename_i hyt
      split
      · exact Or.inl ⟨sceneYoutubeIdxs_gameplay s, rfl⟩
      · dsimp only
        split
        · exact Or.inl ⟨sceneYoutubeIdxs_gameplay s, rfl⟩
        · rename_i i hpick
          right
          refine ⟨i, ?_, rfl, pickIdx_not_used _ _ _ _ hpick⟩
          unfold sceneYoutubeIdxs
          rw [if_pos (by exact hyt)]
          rfl
    · rename_i hnyt
      split
      · rename_i hgr
        split
        · exact Or.inl ⟨sceneYoutubeIdxs_gameplay s, rfl⟩
        · dsimp only
          split
          · exact Or.inl ⟨sceneYoutubeIdxs_gameplay s, rfl⟩
          · exact Or.inl ⟨sceneYoutubeIdxs_of_ne _ (by exact hnyt), rfl⟩
      · exact Or.inl ⟨sceneYoutubeIdxs_of_ne _ hnyt, rfl⟩

theorem fix06Aux_youtube (numR numY numG : ℕ) :
    ∀ (scenes : List Scene) (st : UsedSets),
      (youtubeIdxs (fix06Aux numR numY numG st scenes)).Nodup ∧
      ∀ i ∈ youtubeIdxs (fix06Aux numR numY numG st scenes),
        st.usedYoutube.contains i = false := by
  intro scenes
  induction scenes with
  | nil =>
    intro st
    exact ⟨List.nodup_nil, by intro i hi; simp [youtubeIdxs, fix06Aux] at hi⟩
  | cons s rest ih =>
    intro st
    rw [show fix06Aux numR numY numG st (s :: rest) =
      (fix06Scene numR numY numG st s).2 ::
        fix06Aux numR numY numG (fix06Scene numR numY numG st s).1 rest from rfl]
    have hcons : youtubeIdxs ((fix06Scene numR numY numG st s).2 ::
        fix06Aux numR numY numG (fix06Scene numR numY numG st s).1 rest) =
        sceneYoutubeIdxs (fix06Scene numR numY numG st s).2 ++
        youtubeIdxs (fix06Aux numR numY numG (fix06Scene numR numY numG st s).1 rest) := rfl
    rw [hcons]
    obtain ⟨hrest, hfresh⟩ := ih (fix06Scene numR numY numG st s).1
    rcases fix06Scene_youtube numR numY numG st s with ⟨hz, hst⟩ | ⟨i, hone, hst, hnew⟩
    · rw [hz, List.nil_append]
      refine ⟨hrest, ?_⟩
      intro j hj
      have := hfresh j hj
      rwa [hst] at this
    · rw [hone]
      constructor
      · rw [List.singleton_append, List.nodup_cons]
        refine ⟨?_, hrest⟩
        intro hi
        have := hfresh i hi
        rw [hst] at this
        simp at this
      · intro j hj
        rw [List.singleton_append, List.mem_cons] at hj
        rcases hj with rfl | hj
        · exact hnew
        · have := hfresh j hj
          rw [hst] at this
          simp only [List.contains_cons, Bool.or_eq_false_iff] at this
          exact this.2


theorem sceneGraphIdxs_of_ne (s : Scene)
    (h : ¬ (s.kind = "data_graph" ∨ s.kind = "graph_visualization")) :
    sceneGraphIdxs s = [] := by
  unfold sceneGraphIdxs
  rw [if_neg h]

theorem sceneGraphIdxs_gameplay (s : Scene) :
    sceneGraphIdxs (toGameplayEmpty s) = [] := by
  refine sceneGraphIdxs_of_ne _ ?_
  rintro (hh | hh)
  · exact absurd (show ("gameplay_icons" : String) = "data_graph" from hh) (by decide)
  · exact absurd (show ("gameplay_icons" : String) = "graph_visualization" from hh) (by decide)

theorem fix06Scene_graph (numR numY numG : ℕ) (st : UsedSets) (s : Scene) :
    (sceneGraphIdxs (fix06Scene numR numY numG st s).2 = [] ∧
      (fix06Scene numR numY numG st s).1.usedGraph = st.usedGraph) ∨
    (∃ i, sceneGraphIdxs (fix06Scene numR numY numG st s).2 = [i] ∧
      (fix06Scene numR numY numG st s).1.usedGraph = i :: st.usedGraph ∧
      st.usedGraph.contains i = false) := by
  unfold fix06Scene
  split
  · rename_i hred
    split
    · exact Or.inl ⟨sceneGraphIdxs_gameplay s, rfl⟩
    · dsimp only
      split
      · exact Or.inl ⟨sceneGraphIdxs_gameplay s, rfl⟩
      · refine Or.inl ⟨?_, rfl⟩
        refine sceneGraphIdxs_of_ne _ ?_
        rintro (hh | hh) <;>
          (first
            | (have hh2 : s.kind = "data_graph" := hh
               rw [hred] at hh2
               exact absurd hh2 (by decide))
            | (have hh2 : s.kind = "graph_visualization" := hh
               rw [hred] at hh2
               exact absurd hh2 (by decide)))
  · rename_i hnr
    split
    · rename_i hyt
      split
      · exact Or.inl ⟨sceneGraphIdxs_gameplay s, rfl⟩
      · dsimp only
        split
        · exact Or.inl ⟨sceneGraphIdxs_gameplay s, rfl⟩
        · refine Or.inl ⟨?_, rfl⟩
          refine sceneGraphIdxs_of_ne _ ?_
          rintro (hh | hh) <;>
            (first
              | (have hh2 : s.kind = "data_graph" := hh
                 rw [hyt] at hh2
                 exact absurd hh2 (by decide))
              | (have hh2 : s.kind = "graph_visualization" := hh
                 rw [hyt] at hh2
                 exact absurd hh2 (by decide)))
    · rename_i hnyt
      split
      · rename_i hgr
        split
        · exact Or.inl ⟨sceneGraphIdxs_gameplay s, rfl⟩
        · dsimp only
          split
          · exact Or.inl ⟨sceneGraphIdxs_gameplay s, rfl⟩
          · rename_i i hpick
            right
            refine ⟨i, ?_, rfl, pickIdx_not_used _ _ _ _ hpick⟩
            unfold sceneGraphIdxs
            rw [if_pos (by exact hgr)]
            rfl
      · rename_i hngr
        exact Or.inl ⟨sceneGraphIdxs_of_ne _ hngr, rfl⟩

theorem fix06Aux_graph (numR numY numG : ℕ) :
    ∀ (scenes : List Scene) (st : UsedSets),
      (graphIdxs (fix06Aux numR numY numG st scenes)).Nodup ∧
      ∀ i ∈ graphIdxs (fix06Aux numR numY numG st scenes),
        st.usedGraph.contains i = false := by
  intro scenes
  induction scenes with
  | nil =>
    intro st
    exact ⟨List.nodup_nil, by intro i hi; simp [graphIdxs, fix06Aux] at hi⟩
  | cons s rest ih =>
    intro st
    rw [show fix06Aux numR numY numG st (s :: rest) =
      (fix06Scene numR numY numG st s).2 ::
        fix06Aux numR numY numG (fix06Scene numR numY numG st s).1 rest from rfl]
    have hcons : graphIdxs ((fix06Scene numR numY numG st s).2 ::
        fix06Aux numR numY numG (fix06Scene numR numY numG st s).1 rest) =
        sceneGraphIdxs (fix06Scene numR numY numG st s).2 ++
        graphIdxs (fix06Aux numR numY numG (fix06Scene numR numY numG st s).1 rest) := rfl
    rw [hcons]
    obtain ⟨hrest, hfresh⟩ := ih (fix06Scene numR numY numG st s).1
    rcases fix06Scene_graph numR numY numG st s with ⟨hz, hst⟩ | ⟨i, hone, hst, hnew⟩
    · rw [hz, List.nil_append]
      refine ⟨hrest, ?_⟩
      intro j hj
      have := hfresh j hj
      rwa [hst] at this
    · rw [hone]
      constructor
      · rw [List.singleton_append, List.nodup_cons]
        refine ⟨?_, hrest⟩
        intro hi
        have := hfresh i hi
        rw [hst] at this
        simp at this
      · intro j hj
        rw [List.singleton_append, List.mem_cons] at hj
        rcases hj with rfl | hj
        · exact hnew
        · have := hfresh j hj
          rw [hst] at this
          simp only [List.contains_cons, Bool.or_eq_false_iff] at this
          exact this.2


theorem foldl_fst_sublist {β : Type} (g : List Element × β → Element → List Element × β)
    (hg : ∀ acc e, List.Sublist (g acc e).1 acc.1) :
    ∀ (l : List Element) (acc : List Element × β),
      List.Sublist (l.foldl g acc).1 acc.1
  | [], _ => List.Sublist.refl _
  | e :: t, acc => (foldl_fst_sublist g hg t (g acc e)).trans (hg acc e)

theorem dedupScan_elements (k : String) (raw : Element → Option ℤ) (s : Scene)
    (used : List ℤ) :
    List.Sublist (dedupScan k raw s used).1.elements s.elements ∧
    ((dedupScan k raw s used).1.kind = s.kind ∨
      (dedupScan k raw s used).1.kind = "gameplay_icons") := by
  unfold dedupScan
  dsimp only
  have hsub : ∀ (l : List Element) (acc : List Element × List ℤ),
      List.Sublist (l.foldl (fun (acc : List Element × List ℤ) e =>
        if e.kind = k then
          if acc.2.contains ((raw e).getD 0) then
            (acc.1.filter (fun x => x.kind ≠ k ∨ raw x ≠ some ((raw e).getD 0)), acc.2)
          else (acc.1, (raw e).getD 0 :: acc.2)
        else acc) acc).1 acc.1 := by
    refine foldl_fst_sublist _ ?_
    intro acc e
    dsimp only
    split
    · split
      · exact List.filter_sublist _
      · exact List.Sublist.refl _
    · exact List.Sublist.refl _
  split
  · exact ⟨hsub s.elements (s.elements, used), Or.inr rfl⟩
  · exact ⟨hsub s.elements (s.elements, used), Or.inl rfl⟩


theorem sceneRedditIdxs_dedup (k : String) (raw : Element → Option ℤ) (s : Scene)
    (used : List ℤ) :
    List.Sublist (sceneRedditIdxs (dedupScan k raw s used).1) (sceneRedditIdxs s) := by
  obtain ⟨hel, hkind⟩ := dedupScan_elements k raw s used
  rcases hkind with hk | hg
  · unfold sceneRedditIdxs
    rw [hk]
    split
    · exact List.Sublist.filterMap _ hel
    · exact List.Sublist.refl _
  · rw [sceneRedditIdxs_of_ne _ (by rw [hg]; exact by decide)]
    exact List.nil_sublist _

theorem sceneYoutubeIdxs_dedup (k : String) (raw : Element → Option ℤ) (s : Scene)
    (used : List ℤ) :
    List.Sublist (sceneYoutubeIdxs (dedupScan k raw s used).1) (sceneYoutubeIdxs s) := by
  obtain ⟨hel, hkind⟩ := dedupScan_elements k raw s used
  rcases hkind with hk | hg
  · unfold sceneYoutubeIdxs
    rw [hk]
    split
    · exact List.Sublist.filterMap _ hel
    · exact List.Sublist.refl _
  · rw [sceneYoutubeIdxs_of_ne _ (by rw [hg]; exact by decide)]
    exact List.nil_sublist _

theorem sceneGraphIdxs_dedup (k : String) (raw : Element → Option ℤ) (s : Scene)
    (used : List ℤ) :
    List.Sublist (sceneGraphIdxs (dedupScan k raw s used).1) (sceneGraphIdxs s) := by
  obtain ⟨hel, hkind⟩ := dedupScan_elements k raw s used
  rcases hkind with hk | hg
  · unfold sceneGraphIdxs
    rw [hk]
    split
    · exact List.Sublist.filterMap _ hel
    · exact List.Sublist.refl _
  · rw [sceneGraphIdxs_of_ne _ (by rw [hg]; exact by decide)]
    exact List.nil_sublist _

theorem dedupPassAux_gather (sk ek : String) (raw : Element → Option ℤ)
    (gather : Scene → List ℤ)
    (hdedup : ∀ s used, List.Sublist (gather (dedupScan ek raw s used).1) (gather s)) :
    ∀ (l : List Scene) (used : List ℤ),
      List.Sublist ((dedupPassAux sk ek raw used l).map gather).flatten
        ((l.map gather).flatten)
  | [], _ => List.Sublist.refl _
  | s :: rest, used => by
    rw [dedupPassAux]
    split
    · dsimp only
      rw [List.map_cons, List.flatten_cons, List.map_cons, List.flatten_cons]
      exact (hdedup s used).append (dedupPassAux_gather sk ek raw gather hdedup rest _)
    · rw [List.map_cons, List.flatten_cons, List.map_cons, List.flatten_cons]
      exact (List.Sublist.refl _).append (dedupPassAux_gather sk ek raw gather hdedup rest used)


/-- C2: per-kind asset index uniqueness, corrected to evidence scenes.
After FIX 0.6 and the FIX 1 / FIX 2 / FIX 3.5 dedup passes, the asset
indices gathered from evidence-kind scenes are pairwise distinct for each
kind: FIX 0.6 rebuilds every evidence scene with a single element holding a
fresh index from the shared used-sets, and each dedup pass only removes
elements or demotes scenes, so the gathered index lists only shrink.  Stray
evidence elements inside non-evidence scenes are invisible to all these
passes, so the uniqueness guarantee does not extend to arbitrary scenes. -/
theorem c2_amended (numR numY numG : ℕ) (scenes : List Scene) :
    (redditIdxs (fix35y (fix2 (fix1 (fix06 numR numY numG scenes))))).Nodup ∧
    (youtubeIdxs (fix35y (fix2 (fix1 (fix06 numR numY numG scenes))))).Nodup ∧
    (graphIdxs (fix35y (fix2 (fix1 (fix06 numR numY numG scenes))))).Nodup := by
  have h0R := (fix06Aux_reddit numR numY numG scenes {}).1
  have h0Y := (fix06Aux_youtube numR numY numG scenes {}).1
  have h0G := (fix06Aux_graph numR numY numG scenes {}).1
  have hR : List.Sublist (redditIdxs (fix35y (fix2 (fix1 (fix06 numR numY numG scenes)))))
      (redditIdxs (fix06 numR numY numG scenes)) := by
    refine List.Sublist.trans
      (dedupPassAux_gather "youtube_evidence" "youtube" (fun e => e.youtubeIndex)
        sceneRedditIdxs (sceneRedditIdxs_dedup _ _) _ [])
      (List.Sublist.trans
        (dedupPassAux_gather "reddit_evidence" "reddit" (fun e => e.postIndex)
          sceneRedditIdxs (sceneRedditIdxs_dedup _ _) _ [])
        (dedupPassAux_gather "data_graph" "graph" (fun e => e.index)
          sceneRedditIdxs (sceneRedditIdxs_dedup _ _) _ []))
  have hY : List.Sublist (youtubeIdxs (fix35y (fix2 (fix1 (fix06 numR numY numG scenes)))))
      (youtubeIdxs (fix06 numR numY numG scenes)) := by
    refine List.Sublist.trans
      (dedupPassAux_gather "youtube_evidence" "youtube" (fun e => e.youtubeIndex)
        sceneYoutubeIdxs (sceneYoutubeIdxs_dedup _ _) _ [])
      (List.Sublist.trans
        (dedupPassAux_gather "reddit_evidence" "reddit" (fun e => e.postIndex)
          sceneYoutubeIdxs (sceneYoutubeIdxs_dedup _ _) _ [])
        (dedupPassAux_gather "data_graph" "graph" (fun e => e.index)
          sceneYoutubeIdxs (sceneYoutubeIdxs_dedup _ _) _ []))
  have hG : List.Sublist (graphIdxs (fix35y (fix2 (fix1 (fix06 numR numY numG scenes)))))
      (graphIdxs (fix06 numR numY numG scenes)) := by
    refine List.Sublist.trans
      (dedupPassAux_gather "youtube_evidence" "youtube" (fun e => e.youtubeIndex)
        sceneGraphIdxs (sceneGraphIdxs_dedup _ _) _ [])
      (List.Sublist.trans
        (dedupPassAux_gather "reddit_evidence" "reddit" (fun e => e.postIndex)
          sceneGraphIdxs (sceneGraphIdxs_dedup _ _) _ [])
        (dedupPassAux_gather "data_graph" "graph" (fun e => e.index)
          sceneGraphIdxs (sceneGraphIdxs_dedup _ _) _ []))
  exact ⟨h0R.sublist hR, h0Y.sublist hY, h0G.sublist hG⟩

/-- A stray reddit element with post index 0 inside an Ambient scene
survives the whole validator next to the reddit evidence scene that is
assigned index 0: two scenes of the final timeline reference reddit post
index 0. -/
theorem c2_counterexample :
    (validateTimeline 1 0 0 18 [c2amb, c2red]).countP
      (fun s => s.elements.any (fun e => e.kind = "reddit" ∧ e.postIndex = some 0)) = 2 := by
  with_unfolding_all rfl

end ScenePlanner
